import Mathlib

/-!
# ModbusScope: the polling routine `ModbusMaster::readRegisterList`

A shallow embedding of `src/communication/modbusmaster.cpp`
(`readRegisterList` and `readRegisters`) together with the properties of
the polling cycle: how the register list is cut into runs, which reads are
issued, what ends up in the result map and in the communication counters.

Conventions of the embedding

* `quint16` values are natural numbers below `65536`; every place where the
  source narrows an `int` expression to `quint16` carries an explicit
  `% 65536`.
* `registerList.at(i)` is `registerList.getD i 0`; the lemmas on the run scan
  show that every index the routine uses is inside the list.
* `QMap<quint16, ModbusResult>` is an association list kept in ascending key
  order with one entry per key; `QMap.insert` replaces the value of a key that
  is already present, as `QMap::insert` does.
* The device behind `modbus_read_registers` (libmodbus) is a parameter: a
  transition function on an arbitrary state type, so that "every behaviour of
  the device" is a quantification over that function and its state.
* `success` and `error` are `quint32` in the source. One cycle issues at most
  two reads per list element plus one, and a `QList` holds fewer than `2^31`
  elements, so the per-cycle counters cannot wrap; they are natural numbers.
  The totals handed to `setCommunicationStats` are sums in `quint32`
  arithmetic and carry an explicit `% 4294967296`.
* The field `log` of the loop state is a ghost record of the calls to
  `readRegisters`, in the order they are made. It does not influence any other
  field, and `log_faithful` shows that it lists exactly the calls a device
  receives.
* The two loops of the routine carry a fuel argument, set to
  `registerList.size()`. `scanCount_fuel`, `pollLoop_fuel` and `pollLoop_exit`
  show that this fuel is never used up: each loop is left through one of its
  own exits.
-/

namespace ModbusScope

/-! ## Data model -/

/-- Value of one register after a poll: `ModbusResult(value, success)`. -/
structure ModbusResult where
  value : Nat
  success : Bool
deriving DecidableEq, Repr

/-- The result recorded for a register that could not be read:
`ModbusResult(0, false)`. -/
def ModbusResult.failed : ModbusResult := ⟨0, false⟩

/-- The result recorded for a register read with raw value `v`:
`ModbusResult(v, true)`. -/
def ModbusResult.ok (v : Nat) : ModbusResult := ⟨v, true⟩

/-- `QMap<quint16, ModbusResult>`: entries in ascending key order. -/
abbrev QMap := List (Nat × ModbusResult)

/-- `QMap::insert(key, value)`: adds the entry at its place in key order; an
entry with the same key is replaced. -/
def QMap.insert : QMap → Nat → ModbusResult → QMap
  | [], k, v => [(k, v)]
  | (k', v') :: rest, k, v =>
    if k < k' then (k, v) :: (k', v') :: rest
    else if k = k' then (k, v) :: rest
    else (k', v') :: QMap.insert rest k v

/-- `QMap::keys()`. -/
def QMap.keys (m : QMap) : List Nat := m.map Prod.fst

/-- Lookup of a key (`QMap::find`): the value stored for `k`, if any. -/
def QMap.value : QMap → Nat → Option ModbusResult
  | [], _ => none
  | (k', v') :: rest, k => if k = k' then some v' else QMap.value rest k

/-! ## The device (libmodbus) -/

/-- `MODBUS_ENOBASE` of libmodbus (`modbus.h`). -/
def MODBUS_ENOBASE : Int := 112345678

/-- `MODBUS_EXCEPTION_ILLEGAL_DATA_ADDRESS` of libmodbus (`modbus.h`). -/
def MODBUS_EXCEPTION_ILLEGAL_DATA_ADDRESS : Int := 2

/-- `MODBUS_EXCEPTION_ILLEGAL_DATA_VALUE` of libmodbus (`modbus.h`). -/
def MODBUS_EXCEPTION_ILLEGAL_DATA_VALUE : Int := 3

/-- Outcome of one call of `modbus_read_registers`: it returned `-1` with
`errno` set, or it filled the buffer `aRegister`. -/
inductive ReadReply where
  | error (errno : Int)
  | data (aRegister : List Nat)
deriving DecidableEq, Repr

/-- The device seen through `modbus_read_registers(ctx, addr, nb, dest)`: from
the state of the connection, the wire start address and the number of
registers, the next state and the reply. -/
abbrev Device (σ : Type) := σ → Nat → Nat → σ × ReadReply

/-- Narrowing of an `int` value to `quint16`. -/
def toQuint16 (x : Int) : Nat := (x % 65536).toNat

/-- What `readRegisters` hands back: the connection state, the return code and
the contents of `*pResultList` after the call. -/
structure ReadOut (σ : Type) where
  ctx : σ
  rc : Int
  list : List Nat
  /-- Ghost: the start address given to `modbus_read_registers`. -/
  addr : Nat
  /-- Ghost: the number of registers given to `modbus_read_registers`. -/
  nb : Nat

/-- `ModbusMaster::readRegisters(pCtx, startReg, num, pResultList)`.
The argument `startReg` is the value of the caller's `int` expression; it is
narrowed to the `quint16` parameter. On failure the return code is `errno` and
the list is left as it was; on success the return code is `0` and the list is
replaced by the `num` entries of the buffer (`uint16_t` each; entries a reply
leaves out read as `0`). libmodbus sets a non-zero `errno` when it fails; for a
reply `error 0` the caller takes the success branch over the unchanged list, and
the entries it reads beyond the end of the list read as `0`. -/
def readRegisters {σ : Type} (dev : Device σ) (pCtx : σ) (startReg : Int) (num : Nat)
    (pResultList : List Nat) : ReadOut σ :=
  match dev pCtx (toQuint16 startReg) num with
  | (ctx', ReadReply.error errno) => ⟨ctx', errno, pResultList, toQuint16 startReg, num⟩
  | (ctx', ReadReply.data aRegister) =>
    ⟨ctx', 0, (List.range num).map (fun i => aRegister.getD i 0 % 65536), toQuint16 startReg, num⟩

/-! ## The run scan -/

/-- The `do ... while (bSubsequent == true)` loop of `readRegisterList`,
entered with the current value of `count`; the result is the value of `count`
when the loop is left. `fuel` bounds the number of passes. -/
def scanCount (registerList : List Nat) (consecutiveMax regIndex : Nat) : Nat → Nat → Nat
  | 0, count => count
  | fuel + 1, count =>
    let bSubsequent : Bool :=
      decide (registerList.getD (regIndex + count + 1) 0 = registerList.getD (regIndex + count) 0 + 1)
    let count1 := if bSubsequent then count + 1 else count
    if regIndex + count1 ≥ registerList.length - 1 then count1
    else if count1 > consecutiveMax - 1 - 1 then count1
    else if bSubsequent then scanCount registerList consecutiveMax regIndex fuel count1
    else count1

/-- The value of `count` after `count++` ("At least one register"): the length
of the run that starts at `regIndex`. -/
def runLength (registerList : List Nat) (consecutiveMax regIndex : Nat) : Nat :=
  (if registerList.length - regIndex > 1 ∧ consecutiveMax > 1 then
    scanCount registerList consecutiveMax regIndex registerList.length 0
  else 0) + 1

/-! ## One poll cycle -/

/-- Ghost record of one call of `readRegisters`. -/
structure ReadCall where
  /-- Position in `registerList` of the register the read starts at. -/
  index : Nat
  /-- Whether it is the read of a whole run (`true`) or one of the separate reads
  of the split branch (`false`). -/
  batch : Bool
  /-- Start address that reached `modbus_read_registers`. -/
  startReg : Nat
  /-- Number of registers that reached `modbus_read_registers`. -/
  num : Nat
  /-- Return code of `readRegisters`. -/
  rc : Int
  /-- Contents of `registerDataList` after the call. -/
  data : List Nat
deriving DecidableEq, Repr

/-- The variables of `readRegisterList` inside the `while` loop. `aborted`
records that the loop was left through `break`; `log` is the ghost record of
reads. -/
structure PollState (σ : Type) where
  ctx : σ
  resultMap : QMap
  success : Nat
  error : Nat
  regIndex : Nat
  registerDataList : List Nat
  aborted : Bool
  log : List ReadCall

/-- Whether a return code is one of the two codes on which the routine
splits a run. -/
def isSplitCode (returnCode : Int) : Bool :=
  decide (returnCode = MODBUS_ENOBASE + MODBUS_EXCEPTION_ILLEGAL_DATA_ADDRESS)
    || decide (returnCode = MODBUS_ENOBASE + MODBUS_EXCEPTION_ILLEGAL_DATA_VALUE)

/-- The loop of the success branch: for `i < count` insert
`registerList.at(regIndex) + i` (narrowed to `quint16`) with
`ModbusResult(registerDataList[i], true)`. -/
def insertRun (registerList : List Nat) (regIndex count : Nat) (registerDataList : List Nat)
    (resultMap : QMap) : QMap :=
  (List.range count).foldl
    (fun m i => QMap.insert m ((registerList.getD regIndex 0 + i) % 65536)
      ⟨registerDataList.getD i 0, true⟩)
    resultMap

/-- The loop `for (i = 0; i < registerList.size(); i++)` of the abort branch and
of the connection-failed branch: every register of the list gets
`ModbusResult(0, false)`. -/
def failAll (registerList : List Nat) (resultMap : QMap) : QMap :=
  (List.range registerList.length).foldl
    (fun m i => QMap.insert m (registerList.getD i 0) ⟨0, false⟩)
    resultMap

/-- One pass of the loop "More than one => read all separately". -/
def retryStep {σ : Type} (dev : Device σ) (registerList : List Nat) (regIndex : Nat)
    (st : PollState σ) (i : Nat) : PollState σ :=
  let registerAddr := registerList.getD (regIndex + i) 0
  let r := readRegisters dev st.ctx ((registerAddr : Int) - 40001) 1 st.registerDataList
  let call : ReadCall :=
    ⟨regIndex + i, false, r.addr, r.nb, r.rc, r.list⟩
  if r.rc = 0 then
    { st with
      ctx := r.ctx, registerDataList := r.list, log := st.log ++ [call],
      success := st.success + 1,
      resultMap := QMap.insert st.resultMap registerAddr ⟨r.list.getD 0 0, true⟩ }
  else
    { st with
      ctx := r.ctx, registerDataList := r.list, log := st.log ++ [call],
      error := st.error + 1,
      resultMap := QMap.insert st.resultMap registerAddr ⟨0, false⟩ }

/-- The loop "More than one => read all separately": `count` single reads. -/
def retryLoop {σ : Type} (dev : Device σ) (registerList : List Nat) (regIndex count : Nat)
    (st : PollState σ) : PollState σ :=
  (List.range count).foldl (retryStep dev registerList regIndex) st

/-- The body of the `while (regIndex < registerList.size())` loop. -/
def pollBody {σ : Type} (dev : Device σ) (registerList : List Nat) (consecutiveMax : Nat)
    (st : PollState σ) : PollState σ :=
  let regIndex := st.regIndex
  let count := runLength registerList consecutiveMax regIndex
  let r := readRegisters dev st.ctx ((registerList.getD regIndex 0 : Int) - 40001) count []
  let call : ReadCall :=
    ⟨regIndex, true, r.addr, r.nb, r.rc, r.list⟩
  let st1 : PollState σ :=
    { st with ctx := r.ctx, registerDataList := r.list, log := st.log ++ [call] }
  if r.rc = 0 then
    { st1 with
      success := st1.success + 1,
      resultMap := insertRun registerList regIndex count r.list st1.resultMap,
      regIndex := regIndex + count }
  else if isSplitCode r.rc then
    if count = 1 then
      { st1 with
        error := st1.error + 1,
        resultMap := QMap.insert st1.resultMap (registerList.getD regIndex 0) ⟨0, false⟩,
        regIndex := regIndex + count }
    else
      { retryLoop dev registerList regIndex count { st1 with error := st1.error + 1 } with
        regIndex := regIndex + count }
  else
    { st1 with
      error := st1.error + 1,
      resultMap := failAll registerList st1.resultMap,
      aborted := true }

/-- The `while (regIndex < registerList.size())` loop; `fuel` bounds the number
of passes. -/
def pollLoop {σ : Type} (dev : Device σ) (registerList : List Nat) (consecutiveMax : Nat) :
    Nat → PollState σ → PollState σ
  | 0, st => st
  | fuel + 1, st =>
    if st.regIndex < registerList.length then
      let st1 := pollBody dev registerList consecutiveMax st
      if st1.aborted then st1
      else pollLoop dev registerList consecutiveMax fuel st1
    else st

/-- What one cycle publishes: the map passed to `modbusPollDone`, the two
arguments of `setCommunicationStats` (`successCount`, `errorCount`: the sums of
the totals and the local counters, in `quint32` arithmetic), and, for the
statements below, the local counters `success` and `error` of the cycle, the
abort flag and the record of reads. -/
structure PollDone where
  resultMap : QMap
  success : Nat
  error : Nat
  successCount : Nat
  errorCount : Nat
  aborted : Bool
  log : List ReadCall
deriving DecidableEq, Repr

/-- `ModbusMaster::readRegisterList(registerList)`.
`pCtx` is what `openPort` returned (`none` for a null pointer), `consecutiveMax`
is `_pSettingsModel->consecutiveMax()`, and `communicationSuccessCount`,
`communicationErrorCount` are the totals read from the GUI model. The calls that
configure the connection (`modbus_set_slave`, the two time-outs) and `closePort`
act on the connection only; the state `ctx` stands for the connection after
them. -/
def readRegisterList {σ : Type} (dev : Device σ) (pCtx : Option σ) (consecutiveMax : Nat)
    (communicationSuccessCount communicationErrorCount : Nat) (registerList : List Nat) :
    PollDone :=
  match pCtx with
  | some ctx =>
    let st := pollLoop dev registerList consecutiveMax registerList.length
      { ctx := ctx, resultMap := [], success := 0, error := 0, regIndex := 0,
        registerDataList := [], aborted := false, log := [] }
    { resultMap := st.resultMap, success := st.success, error := st.error,
      successCount := (communicationSuccessCount + st.success) % 4294967296,
      errorCount := (communicationErrorCount + st.error) % 4294967296,
      aborted := st.aborted, log := st.log }
  | none =>
    { resultMap := failAll registerList [], success := 0, error := 0 + 1,
      successCount := (communicationSuccessCount + 0) % 4294967296,
      errorCount := (communicationErrorCount + (0 + 1)) % 4294967296,
      aborted := false, log := [] }

/-! ## Vocabulary of the statements -/

/-- The read of the run that starts at `st.regIndex`: the call of `readRegisters`
at the head of the loop body. -/
def batchRead {σ : Type} (dev : Device σ) (registerList : List Nat) (consecutiveMax : Nat)
    (st : PollState σ) : ReadOut σ :=
  readRegisters dev st.ctx ((registerList.getD st.regIndex 0 : Int) - 40001)
    (runLength registerList consecutiveMax st.regIndex) []

/-- The record of that read. -/
def batchCall {σ : Type} (dev : Device σ) (registerList : List Nat) (consecutiveMax : Nat)
    (st : PollState σ) : ReadCall :=
  ⟨st.regIndex, true, (batchRead dev registerList consecutiveMax st).addr,
    (batchRead dev registerList consecutiveMax st).nb,
    (batchRead dev registerList consecutiveMax st).rc,
    (batchRead dev registerList consecutiveMax st).list⟩

/-- The state in which `readRegisterList` enters the `while` loop. -/
def initState {σ : Type} (ctx : σ) : PollState σ :=
  { ctx := ctx, resultMap := [], success := 0, error := 0, regIndex := 0,
    registerDataList := [], aborted := false, log := [] }

/-- The runs formed in a cycle, as pairs (start index, length): one per read
of a whole run, in the order the reads were made. -/
def runsOf (log : List ReadCall) : List (Nat × Nat) :=
  (log.filter (fun c => c.batch)).map (fun c => (c.index, c.num))

/-- The addresses of a run: `count` entries of the list from `regIndex` on. -/
def runSlice (registerList : List Nat) (r : Nat × Nat) : List Nat :=
  (registerList.drop r.1).take r.2

/-- A return code that makes the routine give up the cycle: not `0` and not one
of the two codes it splits on. -/
def isLinkError (returnCode : Int) : Bool :=
  !decide (returnCode = 0) && !isSplitCode returnCode

/-- Number of recorded reads that returned `0`. -/
def okCount (log : List ReadCall) : Nat := log.countP (fun c => decide (c.rc = 0))

/-- Number of recorded reads that returned an error code. -/
def errCount (log : List ReadCall) : Nat := log.countP (fun c => !decide (c.rc = 0))

/-- What a separate read records for its register: `ModbusResult(data[0], true)`
when it returned `0`, `ModbusResult(0, false)` otherwise. -/
def retryResult (c : ReadCall) : ModbusResult :=
  if c.rc = 0 then ⟨c.data.getD 0 0, true⟩ else ⟨0, false⟩

/-- Every recorded read starts at a register of the list, at the wire address of
that register; the read of a run asks for the length of the run, a separate
read for one register. -/
def LogWellFormed (L : List Nat) (M : Nat) (log : List ReadCall) : Prop :=
  ∀ c ∈ log, c.index < L.length
    ∧ c.startReg = toQuint16 ((L.getD c.index 0 : Int) - 40001)
    ∧ (c.batch = true → c.num = runLength L M c.index)
    ∧ (c.batch = false → c.num = 1)

/-- Consecutive runs: the next run starts where the run ends, and the run has
the full length `M` or the next run starts at a gap. -/
def RunsChained (L : List Nat) (M : Nat) (r r' : Nat × Nat) : Prop :=
  r'.1 = r.1 + r.2
    ∧ (r.2 = M ∨ L.getD r'.1 0 ≠ L.getD (r.1 + r.2 - 1) 0 + 1)

/-- Number of registers recorded as read (`success == true`) in a result map. -/
def okRegisters (m : QMap) : Nat := (m.filter (fun e => e.2.success)).length

/-- Number of registers recorded as failed (`success == false`) in a result
map. -/
def failedRegisters (m : QMap) : Nat := (m.filter (fun e => !e.2.success)).length

/-- A recorded read that made the routine give up the cycle: the read of a run
that returned a code other than `0` and the two split codes. -/
def isFatal (c : ReadCall) : Bool := c.batch && isLinkError c.rc

/-- A device that refuses reads only with range errors, register by register:
`reg w` is the value wire address `w` holds (`none` when it cannot be read). A
read of `nb` registers from `addr` succeeds, with those values, exactly when
every register in it can be read; otherwise it fails with one of the two range
codes. The registers of a read are the wire addresses `addr`, `addr + 1`, ...
taken modulo `2^16`, so that the register after wire address 65535 (external
40000) is wire address 0 (external 40001). The state of the device is free to
change. -/
def RangeOnlyDevice {σ : Type} (dev : Device σ) (reg : Nat → Option Nat) : Prop :=
  ∀ s addr nb,
    ((∀ i, i < nb → (reg ((addr + i) % 65536)).isSome = true) →
      ∃ buf, (dev s addr nb).2 = ReadReply.data buf
        ∧ ∀ i, i < nb → buf.getD i 0 = (reg ((addr + i) % 65536)).getD 0)
    ∧ (¬ (∀ i, i < nb → (reg ((addr + i) % 65536)).isSome = true) →
      ∃ e, (dev s addr nb).2 = ReadReply.error e ∧ isSplitCode e = true)

/-- What reading the register with external address `a` on its own gives on such
a device: Ok with the (16-bit) value it holds, or Failed. -/
def singleOutcome (reg : Nat → Option Nat) (a : Nat) : ModbusResult :=
  match reg (toQuint16 ((a : Int) - 40001)) with
  | some v => ModbusResult.ok (v % 65536)
  | none => ModbusResult.failed

/-- The reference for split equivalence, written from the property and not from
the routine: the result map of reading the registers one by one from the start,
each register of the list, in order, inserted with its own outcome. -/
def oneByOne (reg : Nat → Option Nat) (registerList : List Nat) : QMap :=
  (List.range registerList.length).foldl
    (fun m i => QMap.insert m (registerList.getD i 0) (singleOutcome reg (registerList.getD i 0)))
    []

/-- A device that, next to behaving as `dev`, keeps the list of the calls it
has received: the pairs (start address, number of registers). -/
def spyDevice {σ : Type} (dev : Device σ) : Device (σ × List (Nat × Nat)) :=
  fun s addr nb => (((dev s.1 addr nb).1, s.2 ++ [(addr, nb)]), (dev s.1 addr nb).2)

/-- The loop state on `spyDevice dev` seen as a loop state on `dev`. -/
def forgetSpy {σ : Type} (st : PollState (σ × List (Nat × Nat))) : PollState σ :=
  { ctx := st.ctx.1, resultMap := st.resultMap, success := st.success, error := st.error,
    regIndex := st.regIndex, registerDataList := st.registerDataList, aborted := st.aborted,
    log := st.log }

/-- The calls a log records: the pairs (start address, number of registers). -/
def callsOf (log : List ReadCall) : List (Nat × Nat) := log.map (fun c => (c.startReg, c.num))

/-- The calls `modbus_read_registers` receives in one cycle with the connection
open, in order: what the recording device has kept when the loop is left. -/
def receivedCalls {σ : Type} (dev : Device σ) (ctx : σ) (consecutiveMax : Nat)
    (registerList : List Nat) : List (Nat × Nat) :=
  (pollLoop (spyDevice dev) registerList consecutiveMax registerList.length
    (initState (ctx, []))).ctx.2

/-! ## Example devices -/

/-- A device that answers from a script: the `n`-th read gets the `n`-th reply
of the list, and a timeout-like error (`ETIMEDOUT`, 110) once the script is
used up. -/
def scriptDevice : Device (List ReadReply)
  | [], _, _ => ([], ReadReply.error 110)
  | r :: rest, _, _ => (rest, r)

/-- A stateless device over a register file: wire address `w` holds
`reg w = some v` when it can be read, `none` when it cannot. A read of `nb`
registers from `addr` succeeds when all of them can be read, and otherwise
fails with "illegal data address". -/
def registerFileDevice (reg : Nat → Option Nat) : Device Unit :=
  fun _ addr nb =>
    if (List.range nb).all (fun i => (reg ((addr + i) % 65536)).isSome) then
      ((), ReadReply.data ((List.range nb).map (fun i => (reg ((addr + i) % 65536)).getD 0)))
    else ((), ReadReply.error (MODBUS_ENOBASE + MODBUS_EXCEPTION_ILLEGAL_DATA_ADDRESS))

end ModbusScope


namespace ModbusScope

/-! ## Lemmas on `QMap` -/

theorem QMap.value_insert (m : QMap) (k : Nat) (v : ModbusResult) (k' : Nat) :
    QMap.value (QMap.insert m k v) k' = if k' = k then some v else QMap.value m k' := by
  induction m with
  | nil => simp [QMap.insert, QMap.value]
  | cons hd tl ih =>
    obtain ⟨k0, v0⟩ := hd
    simp only [QMap.insert]
    by_cases h1 : k < k0
    · simp [h1, QMap.value]
    · by_cases h2 : k = k0
      · subst h2
        simp only [QMap.value, lt_self_iff_false, if_true, if_false]
        by_cases h3 : k' = k <;> simp [h3]
      · simp only [h1, h2, if_false, QMap.value, ih]
        by_cases h3 : k' = k0
        · have h4 : ¬ k' = k := fun h => h2 (h ▸ h3)
          simp only [h3, if_true]
          rw [if_neg (fun e => h2 e.symm)]
        · simp [h3]

theorem QMap.mem_keys_insert (m : QMap) (k : Nat) (v : ModbusResult) (k' : Nat) :
    k' ∈ QMap.keys (QMap.insert m k v) ↔ k' = k ∨ k' ∈ QMap.keys m := by
  induction m with
  | nil => simp [QMap.insert, QMap.keys]
  | cons hd tl ih =>
    obtain ⟨k0, v0⟩ := hd
    simp only [QMap.insert]
    by_cases h1 : k < k0
    · simp [h1, QMap.keys]
    · by_cases h2 : k = k0
      · subst h2
        simp [QMap.keys]
      · simp only [h1, h2, if_false]
        simp only [QMap.keys, List.map_cons, List.mem_cons] at ih ⊢
        rw [ih]
        tauto

theorem QMap.keys_sorted_insert (m : QMap) (k : Nat) (v : ModbusResult)
    (h : (QMap.keys m).Pairwise (· < ·)) :
    (QMap.keys (QMap.insert m k v)).Pairwise (· < ·) := by
  induction m with
  | nil => simp [QMap.insert, QMap.keys]
  | cons hd tl ih =>
    obtain ⟨k0, v0⟩ := hd
    have htl : (QMap.keys tl).Pairwise (· < ·) := by
      simp only [QMap.keys, List.map_cons, List.pairwise_cons] at h
      exact h.2
    have hhd : ∀ x ∈ QMap.keys tl, k0 < x := by
      simp only [QMap.keys, List.map_cons, List.pairwise_cons] at h
      exact h.1
    simp only [QMap.insert]
    by_cases h1 : k < k0
    · simp only [h1, if_true]
      show List.Pairwise (· < ·) (k :: k0 :: QMap.keys tl)
      refine List.Pairwise.cons ?_ h
      intro x hx
      rcases List.mem_cons.1 hx with hx | hx
      · omega
      · have := hhd x hx
        omega
    · by_cases h2 : k = k0
      · subst h2
        simp only [h1, if_true, if_false]
        exact h
      · simp only [h1, h2, if_false]
        show List.Pairwise (· < ·) (k0 :: QMap.keys (QMap.insert tl k v))
        refine List.Pairwise.cons ?_ (ih htl)
        intro x hx
        rcases (QMap.mem_keys_insert tl k v x).1 hx with hx | hx
        · omega
        · exact hhd x hx

theorem QMap.value_isSome_iff (m : QMap) (k : Nat) :
    (QMap.value m k).isSome = true ↔ k ∈ QMap.keys m := by
  induction m with
  | nil => simp [QMap.value, QMap.keys]
  | cons hd tl ih =>
    obtain ⟨k0, v0⟩ := hd
    simp only [QMap.value, QMap.keys, List.map_cons, List.mem_cons]
    by_cases h : k = k0
    · simp [h]
    · simp only [h, if_false, false_or]
      exact ih

/-- A run of `QMap.insert` over the indices below `n`. -/
theorem foldl_insert_succ (f : Nat → Nat) (g : Nat → ModbusResult) (n : Nat) (m : QMap) :
    (List.range (n + 1)).foldl (fun m i => QMap.insert m (f i) (g i)) m
      = QMap.insert ((List.range n).foldl (fun m i => QMap.insert m (f i) (g i)) m) (f n) (g n) := by
  rw [List.range_succ, List.foldl_append]
  rfl

theorem mem_keys_foldl_insert (f : Nat → Nat) (g : Nat → ModbusResult) (n : Nat) (m : QMap)
    (k : Nat) :
    k ∈ QMap.keys ((List.range n).foldl (fun m i => QMap.insert m (f i) (g i)) m)
      ↔ k ∈ QMap.keys m ∨ ∃ i, i < n ∧ f i = k := by
  induction n with
  | zero => simp
  | succ n ih =>
    rw [foldl_insert_succ, QMap.mem_keys_insert, ih]
    constructor
    · rintro (h | h | ⟨i, hi, h⟩)
      · exact Or.inr ⟨n, by omega, h.symm⟩
      · exact Or.inl h
      · exact Or.inr ⟨i, by omega, h⟩
    · rintro (h | ⟨i, hi, h⟩)
      · exact Or.inr (Or.inl h)
      · by_cases hin : i = n
        · subst hin
          exact Or.inl h.symm
        · exact Or.inr (Or.inr ⟨i, by omega, h⟩)

theorem keys_sorted_foldl_insert (f : Nat → Nat) (g : Nat → ModbusResult) (n : Nat) (m : QMap)
    (h : (QMap.keys m).Pairwise (· < ·)) :
    (QMap.keys ((List.range n).foldl (fun m i => QMap.insert m (f i) (g i)) m)).Pairwise
      (· < ·) := by
  induction n with
  | zero => simpa using h
  | succ n ih =>
    rw [foldl_insert_succ]
    exact QMap.keys_sorted_insert _ _ _ ih

/-- After the inserts, a key that none of them wrote keeps its value. -/
theorem value_foldl_insert_other (f : Nat → Nat) (g : Nat → ModbusResult) (n : Nat) (m : QMap)
    (k : Nat) (h : ∀ i, i < n → f i ≠ k) :
    QMap.value ((List.range n).foldl (fun m i => QMap.insert m (f i) (g i)) m) k
      = QMap.value m k := by
  induction n with
  | zero => simp
  | succ n ih =>
    rw [foldl_insert_succ, QMap.value_insert]
    have hn : ¬ k = f n := fun e => h n (by omega) e.symm
    simp only [hn, if_false]
    exact ih (fun i hi => h i (by omega))

/-- After the inserts, a key written by insert `j` and by no later one holds the
value of insert `j`. -/
theorem value_foldl_insert_last (f : Nat → Nat) (g : Nat → ModbusResult) (n : Nat) (m : QMap)
    (j : Nat) (hj : j < n) (h : ∀ i, j < i → i < n → f i ≠ f j) :
    QMap.value ((List.range n).foldl (fun m i => QMap.insert m (f i) (g i)) m) (f j)
      = some (g j) := by
  induction n with
  | zero => omega
  | succ n ih =>
    rw [foldl_insert_succ, QMap.value_insert]
    by_cases hjn : j = n
    · subst hjn
      simp
    · have hne : ¬ f j = f n := fun e => h n (by omega) (by omega) e.symm
      simp only [hne, if_false]
      exact ih (by omega) (fun i h1 h2 => h i h1 (by omega))

end ModbusScope

namespace ModbusScope

/-! ## Lemmas on the run scan -/

/-- The scan does not depend on the fuel once the fuel covers what is left of
the list: the loop is left through one of its own exits. -/
theorem scanCount_fuel (L : List Nat) (M regIndex : Nat) (f1 f2 count : Nat)
    (hend : regIndex + count + 1 < L.length)
    (h1 : L.length - (regIndex + count) ≤ f1) (h2 : L.length - (regIndex + count) ≤ f2) :
    scanCount L M regIndex f1 count = scanCount L M regIndex f2 count := by
  induction f1 generalizing f2 count with
  | zero => omega
  | succ f1 ih =>
    cases f2 with
    | zero => omega
    | succ f2 =>
      simp only [scanCount]
      by_cases hb : L.getD (regIndex + count + 1) 0 = L.getD (regIndex + count) 0 + 1
      · simp only [hb, decide_True, if_true]
        by_cases he : regIndex + (count + 1) ≥ L.length - 1
        · simp [he]
        · simp only [he, if_false]
          by_cases hl : count + 1 > M - 1 - 1
          · simp [hl]
          · simp only [hl, if_false]
            exact ih f2 (count + 1) (by omega) (by omega) (by omega)
      · simp only [hb, decide_False, Bool.false_eq_true, if_false]

/-- What the scan establishes, from the loop invariant "the registers at
`regIndex .. regIndex + count` are consecutive, `count + 1` is inside the list
and below the limit". -/
theorem scanCount_spec (L : List Nat) (M regIndex : Nat) (fuel count : Nat)
    (hend : regIndex + count + 1 < L.length)
    (hlim : count + 1 < M)
    (hfuel : L.length - (regIndex + count) ≤ fuel)
    (hcons : ∀ j, j < count → L.getD (regIndex + j + 1) 0 = L.getD (regIndex + j) 0 + 1) :
    count ≤ scanCount L M regIndex fuel count
    ∧ regIndex + scanCount L M regIndex fuel count < L.length
    ∧ scanCount L M regIndex fuel count + 1 ≤ M
    ∧ (∀ j, j < scanCount L M regIndex fuel count →
        L.getD (regIndex + j + 1) 0 = L.getD (regIndex + j) 0 + 1)
    ∧ (regIndex + scanCount L M regIndex fuel count + 1 < L.length →
        scanCount L M regIndex fuel count + 1 = M
        ∨ L.getD (regIndex + scanCount L M regIndex fuel count + 1) 0
            ≠ L.getD (regIndex + scanCount L M regIndex fuel count) 0 + 1) := by
  induction fuel generalizing count with
  | zero => omega
  | succ fuel ih =>
    simp only [scanCount]
    by_cases hb : L.getD (regIndex + count + 1) 0 = L.getD (regIndex + count) 0 + 1
    · simp only [hb, decide_True, if_true]
      have hcons' : ∀ j, j < count + 1 →
          L.getD (regIndex + j + 1) 0 = L.getD (regIndex + j) 0 + 1 := by
        intro j hj
        by_cases hjc : j = count
        · subst hjc; exact hb
        · exact hcons j (by omega)
      by_cases he : regIndex + (count + 1) ≥ L.length - 1
      · simp only [he, if_true]
        refine ⟨by omega, by omega, by omega, hcons', fun h => by omega⟩
      · simp only [he, if_false]
        by_cases hl : count + 1 > M - 1 - 1
        · simp only [hl, if_true]
          refine ⟨by omega, by omega, by omega, hcons', fun _ => Or.inl (by omega)⟩
        · simp only [hl, if_false]
          obtain ⟨a1, a2, a3, a4, a5⟩ :=
            ih (count + 1) (by omega) (by omega) (by omega) hcons'
          exact ⟨by omega, a2, a3, a4, a5⟩
    · simp only [hb, decide_False, Bool.false_eq_true, if_false]
      have he : ¬ regIndex + count ≥ L.length - 1 := by omega
      have hl : ¬ count > M - 1 - 1 := by omega
      simp only [he, hl, if_false]
      exact ⟨le_refl _, by omega, by omega, hcons, fun _ => Or.inr hb⟩

/-- A run has at least one register. -/
theorem runLength_pos (L : List Nat) (M regIndex : Nat) : 1 ≤ runLength L M regIndex := by
  unfold runLength
  omega

/-- A run stays inside the list. -/
theorem runLength_le_length (L : List Nat) (M regIndex : Nat) (h : regIndex < L.length) :
    regIndex + runLength L M regIndex ≤ L.length := by
  unfold runLength
  by_cases hc : L.length - regIndex > 1 ∧ M > 1
  · simp only [hc, and_self, if_true]
    have := (scanCount_spec L M regIndex L.length 0 (by omega) (by omega) (by omega)
      (fun j hj => by omega)).2.1
    omega
  · simp only [hc, if_false]
    omega

/-- A run is not longer than the limit. -/
theorem runLength_le_max (L : List Nat) (M regIndex : Nat) (hM : 1 ≤ M) :
    runLength L M regIndex ≤ M := by
  unfold runLength
  by_cases hc : L.length - regIndex > 1 ∧ M > 1
  · simp only [hc, and_self, if_true]
    exact (scanCount_spec L M regIndex L.length 0 (by omega) (by omega) (by omega)
      (fun j hj => by omega)).2.2.1
  · simp only [hc, if_false]
    omega

/-- The registers of a run are consecutive. -/
theorem runLength_consecutive (L : List Nat) (M regIndex : Nat) (j : Nat)
    (hj : j + 1 < runLength L M regIndex) :
    L.getD (regIndex + j + 1) 0 = L.getD (regIndex + j) 0 + 1 := by
  unfold runLength at hj
  by_cases hc : L.length - regIndex > 1 ∧ M > 1
  · simp only [hc, and_self, if_true] at hj
    exact (scanCount_spec L M regIndex L.length 0 (by omega) (by omega) (by omega)
      (fun j hj => by omega)).2.2.2.1 j (by omega)
  · simp only [hc, if_false] at hj
    omega

/-- A run that does not end the list stops at the limit or at a gap. -/
theorem runLength_maximal (L : List Nat) (M regIndex : Nat) (hM : 1 ≤ M)
    (h : regIndex + runLength L M regIndex < L.length) :
    runLength L M regIndex = M
    ∨ L.getD (regIndex + runLength L M regIndex) 0
        ≠ L.getD (regIndex + runLength L M regIndex - 1) 0 + 1 := by
  unfold runLength at h ⊢
  by_cases hc : L.length - regIndex > 1 ∧ M > 1
  · simp only [hc, and_self, if_true] at h ⊢
    have := (scanCount_spec L M regIndex L.length 0 (by omega) (by omega) (by omega)
      (fun j hj => by omega)).2.2.2.2 (by omega)
    rcases this with h1 | h1
    · exact Or.inl h1
    · refine Or.inr ?_
      have e : regIndex + (scanCount L M regIndex L.length 0 + 1) - 1
          = regIndex + scanCount L M regIndex L.length 0 := by omega
      rw [e]
      exact h1
  · simp only [hc, if_false] at h ⊢
    left
    omega

/-- The `i`-th register of a run is the first one plus `i`. -/
theorem runLength_offset (L : List Nat) (M regIndex : Nat) (i : Nat)
    (hi : i < runLength L M regIndex) :
    L.getD (regIndex + i) 0 = L.getD regIndex 0 + i := by
  induction i with
  | zero => simp
  | succ i ih =>
    have := runLength_consecutive L M regIndex i hi
    rw [show regIndex + (i + 1) = regIndex + i + 1 by omega, this, ih (by omega)]
    omega

/-- With limit `1` every run has length `1`. -/
theorem runLength_one (L : List Nat) (regIndex : Nat) : runLength L 1 regIndex = 1 := by
  simp [runLength]

end ModbusScope

namespace ModbusScope

/-! ## The loop body, branch by branch -/

theorem readRegisters_addr {σ : Type} (dev : Device σ) (ctx : σ) (startReg : Int) (num : Nat)
    (l : List Nat) : (readRegisters dev ctx startReg num l).addr = toQuint16 startReg := by
  unfold readRegisters
  split <;> rfl

theorem readRegisters_nb {σ : Type} (dev : Device σ) (ctx : σ) (startReg : Int) (num : Nat)
    (l : List Nat) : (readRegisters dev ctx startReg num l).nb = num := by
  unfold readRegisters
  split <;> rfl

theorem isSplitCode_ne_zero (rc : Int) (h : isSplitCode rc = true) : rc ≠ 0 := by
  intro h0
  subst h0
  revert h
  decide

/-- Success branch. -/
theorem pollBody_ok {σ : Type} (dev : Device σ) (L : List Nat) (M : Nat) (st : PollState σ)
    (h : (batchRead dev L M st).rc = 0) :
    pollBody dev L M st =
      { st with
        ctx := (batchRead dev L M st).ctx,
        registerDataList := (batchRead dev L M st).list,
        log := st.log ++ [batchCall dev L M st],
        success := st.success + 1,
        resultMap := insertRun L st.regIndex (runLength L M st.regIndex)
          (batchRead dev L M st).list st.resultMap,
        regIndex := st.regIndex + runLength L M st.regIndex } := by
  unfold batchRead at h
  simp only [pollBody, batchCall, batchRead, h, if_true]

/-- Range error on a run of one register. -/
theorem pollBody_split_one {σ : Type} (dev : Device σ) (L : List Nat) (M : Nat)
    (st : PollState σ) (h : isSplitCode (batchRead dev L M st).rc = true)
    (hc : runLength L M st.regIndex = 1) :
    pollBody dev L M st =
      { st with
        ctx := (batchRead dev L M st).ctx,
        registerDataList := (batchRead dev L M st).list,
        log := st.log ++ [batchCall dev L M st],
        error := st.error + 1,
        resultMap := QMap.insert st.resultMap (L.getD st.regIndex 0) ⟨0, false⟩,
        regIndex := st.regIndex + runLength L M st.regIndex } := by
  have h0 := isSplitCode_ne_zero _ h
  unfold batchRead at h h0
  rw [hc] at h h0
  simp only [pollBody, batchCall, batchRead, hc, h, h0, if_true, if_false]

/-- Range error on a run of several registers. -/
theorem pollBody_split_many {σ : Type} (dev : Device σ) (L : List Nat) (M : Nat)
    (st : PollState σ) (h : isSplitCode (batchRead dev L M st).rc = true)
    (hc : runLength L M st.regIndex ≠ 1) :
    pollBody dev L M st =
      { retryLoop dev L st.regIndex (runLength L M st.regIndex)
          { st with
            ctx := (batchRead dev L M st).ctx,
            registerDataList := (batchRead dev L M st).list,
            log := st.log ++ [batchCall dev L M st],
            error := st.error + 1 } with
        regIndex := st.regIndex + runLength L M st.regIndex } := by
  have h0 := isSplitCode_ne_zero _ h
  unfold batchRead at h h0
  simp only [pollBody, batchCall, batchRead, h, h0, hc, if_true, if_false]

/-- Any other error: the cycle is given up. -/
theorem pollBody_abort {σ : Type} (dev : Device σ) (L : List Nat) (M : Nat)
    (st : PollState σ) (h : isLinkError (batchRead dev L M st).rc = true) :
    pollBody dev L M st =
      { st with
        ctx := (batchRead dev L M st).ctx,
        registerDataList := (batchRead dev L M st).list,
        log := st.log ++ [batchCall dev L M st],
        error := st.error + 1,
        resultMap := failAll L st.resultMap,
        aborted := true } := by
  have h0 : (batchRead dev L M st).rc ≠ 0 := by
    intro e
    simp [isLinkError, e] at h
  have h1 : isSplitCode (batchRead dev L M st).rc = false := by
    simp only [isLinkError, Bool.and_eq_true, Bool.not_eq_true'] at h
    exact h.2
  unfold batchRead at h0 h1
  simp only [pollBody, batchCall, batchRead, h0, h1, if_false, Bool.false_eq_true]

/-- The three kinds of return code. -/
theorem rc_cases (rc : Int) : rc = 0 ∨ isSplitCode rc = true ∨ isLinkError rc = true := by
  by_cases h0 : rc = 0
  · exact Or.inl h0
  · by_cases h1 : isSplitCode rc = true
    · exact Or.inr (Or.inl h1)
    · refine Or.inr (Or.inr ?_)
      simp [isLinkError, h0, h1]

end ModbusScope

namespace ModbusScope

/-! ## The split loop -/

theorem okCount_append (a b : List ReadCall) : okCount (a ++ b) = okCount a + okCount b := by
  simp [okCount, List.countP_append]

theorem errCount_append (a b : List ReadCall) : errCount (a ++ b) = errCount a + errCount b := by
  simp [errCount, List.countP_append]

theorem retryLoop_succ {σ : Type} (dev : Device σ) (L : List Nat) (regIndex n : Nat)
    (st : PollState σ) :
    retryLoop dev L regIndex (n + 1) st
      = retryStep dev L regIndex (retryLoop dev L regIndex n st) n := by
  simp only [retryLoop, List.range_succ, List.foldl_append, List.foldl_cons, List.foldl_nil]

/-- One separate read: what it records. -/
theorem retryStep_spec {σ : Type} (dev : Device σ) (L : List Nat) (regIndex : Nat)
    (st : PollState σ) (i : Nat) :
    ∃ c : ReadCall,
      c.index = regIndex + i ∧ c.batch = false
      ∧ c.startReg = toQuint16 ((L.getD (regIndex + i) 0 : Int) - 40001) ∧ c.num = 1
      ∧ (retryStep dev L regIndex st i).log = st.log ++ [c]
      ∧ (retryStep dev L regIndex st i).resultMap
          = QMap.insert st.resultMap (L.getD (regIndex + i) 0) (retryResult c)
      ∧ (retryStep dev L regIndex st i).success = st.success + okCount [c]
      ∧ (retryStep dev L regIndex st i).error = st.error + errCount [c]
      ∧ (retryStep dev L regIndex st i).aborted = st.aborted
      ∧ (retryStep dev L regIndex st i).regIndex = st.regIndex := by
  refine ⟨⟨regIndex + i, false,
    (readRegisters dev st.ctx ((L.getD (regIndex + i) 0 : Int) - 40001) 1
      st.registerDataList).addr,
    (readRegisters dev st.ctx ((L.getD (regIndex + i) 0 : Int) - 40001) 1
      st.registerDataList).nb,
    (readRegisters dev st.ctx ((L.getD (regIndex + i) 0 : Int) - 40001) 1
      st.registerDataList).rc,
    (readRegisters dev st.ctx ((L.getD (regIndex + i) 0 : Int) - 40001) 1
      st.registerDataList).list⟩, rfl, rfl, readRegisters_addr _ _ _ _ _,
    readRegisters_nb _ _ _ _ _, ?_⟩
  by_cases h : (readRegisters dev st.ctx ((L.getD (regIndex + i) 0 : Int) - 40001) 1
      st.registerDataList).rc = 0
  · simp [-List.getD_eq_getElem?_getD, retryStep, retryResult, okCount, errCount, h]
  · simp [-List.getD_eq_getElem?_getD, retryStep, retryResult, okCount, errCount, h]

/-- The split loop: `n` separate reads, one per register of the run, in order,
each recorded in the map and in one of the counters. -/
theorem retryLoop_spec {σ : Type} (dev : Device σ) (L : List Nat) (regIndex n : Nat)
    (st : PollState σ) :
    ∃ retries : List ReadCall,
      (retryLoop dev L regIndex n st).log = st.log ++ retries
      ∧ retries.length = n
      ∧ (∀ i, i < n → ∃ c, retries[i]? = some c
          ∧ c.index = regIndex + i ∧ c.batch = false
          ∧ c.startReg = toQuint16 ((L.getD (regIndex + i) 0 : Int) - 40001) ∧ c.num = 1
          ∧ ((∀ j, i < j → j < n → L.getD (regIndex + j) 0 ≠ L.getD (regIndex + i) 0) →
              QMap.value (retryLoop dev L regIndex n st).resultMap (L.getD (regIndex + i) 0)
                = some (retryResult c)))
      ∧ (retryLoop dev L regIndex n st).success = st.success + okCount retries
      ∧ (retryLoop dev L regIndex n st).error = st.error + errCount retries
      ∧ (retryLoop dev L regIndex n st).aborted = st.aborted
      ∧ (retryLoop dev L regIndex n st).regIndex = st.regIndex
      ∧ (∀ k, k ∈ QMap.keys (retryLoop dev L regIndex n st).resultMap
          ↔ k ∈ QMap.keys st.resultMap ∨ ∃ i, i < n ∧ L.getD (regIndex + i) 0 = k)
      ∧ ((QMap.keys st.resultMap).Pairwise (· < ·) →
          (QMap.keys (retryLoop dev L regIndex n st).resultMap).Pairwise (· < ·)) := by
  induction n with
  | zero =>
    refine ⟨[], ?_⟩
    simp [retryLoop, okCount, errCount]
  | succ n ih =>
    obtain ⟨retries, hlog, hlen, hall, hs, he, ha, hr, hk, hp⟩ := ih
    obtain ⟨c, c1, c2, c3, c4, clog, cmap, cs, ce, ca, cr⟩ :=
      retryStep_spec dev L regIndex (retryLoop dev L regIndex n st) n
    refine ⟨retries ++ [c], ?_, ?_, ?_, ?_, ?_, ?_, ?_, ?_, ?_⟩
    · rw [retryLoop_succ, clog, hlog, List.append_assoc]
    · simp [hlen]
    · intro i hi
      by_cases hin : i = n
      · subst hin
        refine ⟨c, ?_, c1, c2, c3, c4, ?_⟩
        · rw [List.getElem?_append_right (by omega)]
          simp [hlen]
        · intro _
          rw [retryLoop_succ, cmap, QMap.value_insert]
          simp
      · obtain ⟨c', d0, d1, d2, d3, d4, d5⟩ := hall i (by omega)
        refine ⟨c', ?_, d1, d2, d3, d4, ?_⟩
        · rw [List.getElem?_append_left (by omega)]
          exact d0
        · intro hdist
          rw [retryLoop_succ, cmap, QMap.value_insert]
          have hne : ¬ L.getD (regIndex + i) 0 = L.getD (regIndex + n) 0 :=
            fun e => hdist n (by omega) (by omega) e.symm
          simp only [hne, if_false]
          exact d5 (fun j h1 h2 => hdist j h1 (by omega))
    · rw [retryLoop_succ, cs, hs, okCount_append]
      omega
    · rw [retryLoop_succ, ce, he, errCount_append]
      omega
    · rw [retryLoop_succ, ca, ha]
    · rw [retryLoop_succ, cr, hr]
    · intro k
      rw [retryLoop_succ, cmap, QMap.mem_keys_insert, hk]
      constructor
      · rintro (h | h | ⟨i, hi, h⟩)
        · exact Or.inr ⟨n, by omega, h.symm⟩
        · exact Or.inl h
        · exact Or.inr ⟨i, by omega, h⟩
      · rintro (h | ⟨i, hi, h⟩)
        · exact Or.inr (Or.inl h)
        · by_cases hin : i = n
          · subst hin
            exact Or.inl h.symm
          · exact Or.inr (Or.inr ⟨i, by omega, h⟩)
    · intro hsorted
      rw [retryLoop_succ, cmap]
      exact QMap.keys_sorted_insert _ _ _ (hp hsorted)

end ModbusScope

namespace ModbusScope

/-! ## The `while` loop -/

/-- Unless the body gives up the cycle, it leaves the abort flag alone and moves
`regIndex` past the run. -/
theorem pollBody_advance {σ : Type} (dev : Device σ) (L : List Nat) (M : Nat)
    (st : PollState σ) (h : (pollBody dev L M st).aborted = false) :
    (pollBody dev L M st).regIndex = st.regIndex + runLength L M st.regIndex
    ∧ isLinkError (batchRead dev L M st).rc = false := by
  rcases rc_cases (batchRead dev L M st).rc with h0 | h1 | h2
  · rw [pollBody_ok dev L M st h0]
    simp [isLinkError, h0]
  · have hl : isLinkError (batchRead dev L M st).rc = false := by
      simp [isLinkError, h1]
    by_cases hc : runLength L M st.regIndex = 1
    · rw [pollBody_split_one dev L M st h1 hc]
      exact ⟨rfl, hl⟩
    · rw [pollBody_split_many dev L M st h1 hc]
      exact ⟨rfl, hl⟩
  · rw [pollBody_abort dev L M st h2] at h
    simp at h

/-- Induction over the passes of the loop: a property of the loop state that
holds on entry and that every pass keeps holds when the loop is left. -/
theorem pollLoop_inv {σ : Type} (dev : Device σ) (L : List Nat) (M : Nat)
    (Inv : PollState σ → Prop)
    (hstep : ∀ st, Inv st → st.aborted = false → st.regIndex < L.length →
      Inv (pollBody dev L M st))
    (fuel : Nat) (st : PollState σ) (h : Inv st) (ha : st.aborted = false) :
    Inv (pollLoop dev L M fuel st) := by
  induction fuel generalizing st with
  | zero => exact h
  | succ fuel ih =>
    simp only [pollLoop]
    by_cases hr : st.regIndex < L.length
    · simp only [hr, if_true]
      by_cases hb : (pollBody dev L M st).aborted = true
      · simp only [hb, if_true]
        exact hstep st h ha hr
      · simp only [hb, if_false, Bool.false_eq_true]
        exact ih _ (hstep st h ha hr) (by simpa using hb)
    · simp only [hr, if_false]
      exact h

/-- The loop is left through `break` or with `regIndex` at the end of the list:
the fuel `registerList.size()` is never used up. -/
theorem pollLoop_exit {σ : Type} (dev : Device σ) (L : List Nat) (M : Nat)
    (fuel : Nat) (st : PollState σ) (ha : st.aborted = false)
    (hf : L.length - st.regIndex ≤ fuel) :
    (pollLoop dev L M fuel st).aborted = true
    ∨ L.length ≤ (pollLoop dev L M fuel st).regIndex := by
  induction fuel generalizing st with
  | zero =>
    right
    simp only [pollLoop]
    omega
  | succ fuel ih =>
    simp only [pollLoop]
    by_cases hr : st.regIndex < L.length
    · simp only [hr, if_true]
      by_cases hb : (pollBody dev L M st).aborted = true
      · rw [if_pos hb]
        exact Or.inl hb
      · simp only [hb, if_false, Bool.false_eq_true]
        have hb' : (pollBody dev L M st).aborted = false := by simpa using hb
        have hadv := (pollBody_advance dev L M st hb').1
        have hpos := runLength_pos L M st.regIndex
        exact ih _ hb' (by omega)
    · simp only [hr, if_false]
      right
      omega

/-- The result of the loop does not depend on the fuel once the fuel covers
what is left of the list. -/
theorem pollLoop_fuel {σ : Type} (dev : Device σ) (L : List Nat) (M : Nat)
    (f1 f2 : Nat) (st : PollState σ)
    (h1 : L.length - st.regIndex ≤ f1) (h2 : L.length - st.regIndex ≤ f2) :
    pollLoop dev L M f1 st = pollLoop dev L M f2 st := by
  induction f1 generalizing f2 st with
  | zero =>
    cases f2 with
    | zero => rfl
    | succ f2 =>
      have hr : ¬ st.regIndex < L.length := by omega
      simp only [pollLoop, hr, if_false]
  | succ f1 ih =>
    cases f2 with
    | zero =>
      have hr : ¬ st.regIndex < L.length := by omega
      simp only [pollLoop, hr, if_false]
    | succ f2 =>
      simp only [pollLoop]
      by_cases hr : st.regIndex < L.length
      · simp only [hr, if_true]
        by_cases hb : (pollBody dev L M st).aborted = true
        · simp only [hb, if_true]
        · simp only [hb, if_false, Bool.false_eq_true]
          have hb' : (pollBody dev L M st).aborted = false := by simpa using hb
          have hadv := (pollBody_advance dev L M st hb').1
          have hpos := runLength_pos L M st.regIndex
          exact ih f2 _ (by omega) (by omega)
      · simp only [hr, if_false]

/-- With the connection open, the cycle publishes the state in which the loop
is left. -/
theorem readRegisterList_some {σ : Type} (dev : Device σ) (ctx : σ) (M pS pE : Nat)
    (L : List Nat) :
    readRegisterList dev (some ctx) M pS pE L =
      { resultMap := (pollLoop dev L M L.length (initState ctx)).resultMap,
        success := (pollLoop dev L M L.length (initState ctx)).success,
        error := (pollLoop dev L M L.length (initState ctx)).error,
        successCount := (pS + (pollLoop dev L M L.length (initState ctx)).success) % 4294967296,
        errorCount := (pE + (pollLoop dev L M L.length (initState ctx)).error) % 4294967296,
        aborted := (pollLoop dev L M L.length (initState ctx)).aborted,
        log := (pollLoop dev L M L.length (initState ctx)).log } := rfl

/-- Facts on the record of the read of a run. -/
theorem batchCall_fields {σ : Type} (dev : Device σ) (L : List Nat) (M : Nat)
    (st : PollState σ) :
    (batchCall dev L M st).index = st.regIndex
    ∧ (batchCall dev L M st).batch = true
    ∧ (batchCall dev L M st).startReg = toQuint16 ((L.getD st.regIndex 0 : Int) - 40001)
    ∧ (batchCall dev L M st).num = runLength L M st.regIndex
    ∧ (batchCall dev L M st).rc = (batchRead dev L M st).rc :=
  ⟨rfl, rfl, readRegisters_addr _ _ _ _ _, readRegisters_nb _ _ _ _ _, rfl⟩

/-- The log after one pass: the log before, the read of the run, and the
separate reads of the split branch, if any. The separate reads are not reads
of a run and none follows a read that gave up the cycle. -/
theorem pollBody_log {σ : Type} (dev : Device σ) (L : List Nat) (M : Nat)
    (st : PollState σ) :
    ∃ retries : List ReadCall,
      (pollBody dev L M st).log = st.log ++ batchCall dev L M st :: retries
      ∧ (∀ c ∈ retries, c.batch = false ∧ c.num = 1 ∧ st.regIndex ≤ c.index
          ∧ c.index < st.regIndex + runLength L M st.regIndex
          ∧ c.startReg = toQuint16 ((L.getD c.index 0 : Int) - 40001))
      ∧ (isLinkError (batchRead dev L M st).rc = true → retries = [])
      ∧ (pollBody dev L M st).success = st.success + okCount (batchCall dev L M st :: retries)
      ∧ (pollBody dev L M st).error = st.error + errCount (batchCall dev L M st :: retries) := by
  have hrc : (batchCall dev L M st).rc = (batchRead dev L M st).rc := rfl
  rcases rc_cases (batchRead dev L M st).rc with h0 | h1 | h2
  · refine ⟨[], ?_, by simp, fun _ => rfl, ?_, ?_⟩
    · rw [pollBody_ok dev L M st h0]
    · rw [pollBody_ok dev L M st h0]
      simp [okCount, hrc, h0]
    · rw [pollBody_ok dev L M st h0]
      simp [errCount, hrc, h0]
  · have hne := isSplitCode_ne_zero _ h1
    by_cases hc : runLength L M st.regIndex = 1
    · refine ⟨[], ?_, by simp, fun _ => rfl, ?_, ?_⟩
      · rw [pollBody_split_one dev L M st h1 hc]
      · rw [pollBody_split_one dev L M st h1 hc]
        simp [okCount, hrc, hne]
      · rw [pollBody_split_one dev L M st h1 hc]
        simp [errCount, hrc, hne]
    · obtain ⟨retries, hlog, hlen, hall, hs, he, -, -, -, -⟩ :=
        retryLoop_spec dev L st.regIndex (runLength L M st.regIndex)
          { st with
            ctx := (batchRead dev L M st).ctx,
            registerDataList := (batchRead dev L M st).list,
            log := st.log ++ [batchCall dev L M st],
            error := st.error + 1 }
      refine ⟨retries, ?_, ?_, ?_, ?_, ?_⟩
      · rw [pollBody_split_many dev L M st h1 hc]
        simp only [hlog, List.append_assoc, List.singleton_append]
      · intro c hc'
        obtain ⟨i, hi, hget⟩ := List.getElem_of_mem hc'
        obtain ⟨c', d0, d1, d2, d3, d4, -⟩ := hall i (by omega)
        rw [List.getElem?_eq_getElem hi, hget] at d0
        cases d0
        refine ⟨d2, d4, by omega, by omega, ?_⟩
        rw [d3, d1]
      · intro hl
        simp [isLinkError, h1] at hl
      · rw [pollBody_split_many dev L M st h1 hc]
        simp only [hs]
        rw [show batchCall dev L M st :: retries = [batchCall dev L M st] ++ retries from rfl,
          okCount_append]
        simp [okCount, hrc, hne]
      · rw [pollBody_split_many dev L M st h1 hc]
        simp only [he]
        rw [show batchCall dev L M st :: retries = [batchCall dev L M st] ++ retries from rfl,
          errCount_append]
        simp [errCount, hrc, hne]
        omega
  · have hne : (batchRead dev L M st).rc ≠ 0 := by
      intro e
      simp [isLinkError, e] at h2
    refine ⟨[], ?_, by simp, fun _ => rfl, ?_, ?_⟩
    · rw [pollBody_abort dev L M st h2]
    · rw [pollBody_abort dev L M st h2]
      simp [okCount, hrc, hne]
    · rw [pollBody_abort dev L M st h2]
      simp [errCount, hrc, hne]

end ModbusScope

namespace ModbusScope

/-! ## The runs of a cycle -/

/-- One pass of the loop adds one run: the one that starts at `regIndex`. -/
theorem runsOf_pollBody {σ : Type} (dev : Device σ) (L : List Nat) (M : Nat)
    (st : PollState σ) :
    runsOf (pollBody dev L M st).log
      = runsOf st.log ++ [(st.regIndex, runLength L M st.regIndex)] := by
  obtain ⟨retries, hlog, hret, -, -, -⟩ := pollBody_log dev L M st
  have hf : retries.filter (fun c => c.batch) = [] := by
    rw [List.filter_eq_nil_iff]
    intro c hc
    simp [(hret c hc).1]
  obtain ⟨b1, b2, -, b4, -⟩ := batchCall_fields dev L M st
  rw [hlog]
  simp only [runsOf, List.filter_append, List.filter_cons, b2, if_true, hf, List.map_append,
    List.map_cons, List.map_nil, b1, b4]

theorem pollBody_logWellFormed {σ : Type} (dev : Device σ) (L : List Nat) (M : Nat)
    (st : PollState σ) (h : LogWellFormed L M st.log) (hr : st.regIndex < L.length) :
    LogWellFormed L M (pollBody dev L M st).log := by
  obtain ⟨retries, hlog, hret, -, -, -⟩ := pollBody_log dev L M st
  obtain ⟨b1, b2, b3, b4, -⟩ := batchCall_fields dev L M st
  have hle := runLength_le_length L M st.regIndex hr
  intro c hc
  rw [hlog] at hc
  rcases List.mem_append.1 hc with hc | hc
  · exact h c hc
  · rcases List.mem_cons.1 hc with hc | hc
    · subst hc
      refine ⟨by omega, ?_, ?_, ?_⟩
      · rw [b3, b1]
      · intro _
        rw [b4, b1]
      · intro hb
        rw [b2] at hb
        cases hb
    · obtain ⟨r1, r2, r3, r4, r5⟩ := hret c hc
      refine ⟨by omega, r5, ?_, fun _ => r2⟩
      intro hb
      rw [r1] at hb
      cases hb

theorem pollLoop_logWellFormed {σ : Type} (dev : Device σ) (L : List Nat) (M : Nat)
    (fuel : Nat) (ctx : σ) :
    LogWellFormed L M (pollLoop dev L M fuel (initState ctx)).log := by
  refine pollLoop_inv dev L M (fun st => LogWellFormed L M st.log) ?_ fuel (initState ctx) ?_ rfl
  · intro st h _ hr
    exact pollBody_logWellFormed dev L M st h hr
  · intro c hc
    simp [initState] at hc

/-- A run of a well-formed log is the pair of an index of the list and the run
length the scan finds there. -/
theorem mem_runsOf {L : List Nat} {M : Nat} {log : List ReadCall} (h : LogWellFormed L M log)
    {r : Nat × Nat} (hr : r ∈ runsOf log) :
    r.1 < L.length ∧ r.2 = runLength L M r.1 := by
  simp only [runsOf, List.mem_map, List.mem_filter] at hr
  obtain ⟨c, ⟨hc, hb⟩, rfl⟩ := hr
  obtain ⟨h1, -, h3, -⟩ := h c hc
  exact ⟨h1, h3 hb⟩

/-- Unless the cycle is given up, the runs formed so far cover the list up to
`regIndex`. -/
theorem pollLoop_cover {σ : Type} (dev : Device σ) (L : List Nat) (M : Nat)
    (fuel : Nat) (ctx : σ) :
    (pollLoop dev L M fuel (initState ctx)).aborted = false →
      ((runsOf (pollLoop dev L M fuel (initState ctx)).log).map (runSlice L)).flatten
        = L.take (pollLoop dev L M fuel (initState ctx)).regIndex := by
  refine pollLoop_inv dev L M
    (fun st => st.aborted = false →
      ((runsOf st.log).map (runSlice L)).flatten = L.take st.regIndex) ?_ fuel (initState ctx)
    ?_ rfl
  · intro st h ha _ hb
    rw [runsOf_pollBody, (pollBody_advance dev L M st hb).1, List.map_append,
      List.flatten_append, h ha, List.take_add]
    simp [runSlice]
  · intro _
    simp [initState, runsOf]

theorem pollLoop_chain {σ : Type} (dev : Device σ) (L : List Nat) (M : Nat) (hM : 1 ≤ M)
    (fuel : Nat) (ctx : σ) :
    List.Chain' (RunsChained L M) (runsOf (pollLoop dev L M fuel (initState ctx)).log) := by
  refine (pollLoop_inv dev L M
    (fun st : PollState σ => LogWellFormed L M st.log
      ∧ List.Chain' (RunsChained L M) (runsOf st.log)
      ∧ (st.aborted = false → ∀ r ∈ (runsOf st.log).getLast?, r.1 + r.2 = st.regIndex))
    ?_ fuel (initState ctx) ?_ rfl).2.1
  · rintro st ⟨hwf, hch, hlast⟩ ha hr
    refine ⟨pollBody_logWellFormed dev L M st hwf hr, ?_, ?_⟩
    · rw [runsOf_pollBody, List.chain'_append]
      refine ⟨hch, List.chain'_singleton _, ?_⟩
      intro r hrl y hy
      simp only [List.head?_cons, Option.mem_def, Option.some.injEq] at hy
      subst hy
      have hend := hlast ha r hrl
      have hmem : r ∈ runsOf st.log := List.mem_of_mem_getLast? hrl
      obtain ⟨m1, m2⟩ := mem_runsOf hwf hmem
      refine ⟨hend.symm, ?_⟩
      have hmax := runLength_maximal L M r.1 hM (by rw [← m2]; omega)
      rw [← m2, hend] at hmax
      rcases hmax with h1 | h1
      · exact Or.inl h1
      · exact Or.inr (by rw [hend]; exact h1)
    · intro hb r hrl
      rw [runsOf_pollBody, List.getLast?_concat] at hrl
      simp only [Option.mem_def, Option.some.injEq] at hrl
      subst hrl
      exact (pollBody_advance dev L M st hb).1.symm
  · refine ⟨?_, ?_, ?_⟩
    · intro c hc
      simp [initState] at hc
    · simp [initState, runsOf]
    · intro _ r hr
      simp [initState, runsOf] at hr

end ModbusScope

namespace ModbusScope

/-! ## The planner -/

/-- C1 (planner partition correctness). For every register list and every
maximum run length `M ≥ 1`, when no read gives up the cycle, the runs
`(regIndex, count)` that `readRegisterList` forms satisfy: their slices of the
list, concatenated in order, are the list itself; every run has at least one and
at most `M` registers and lies inside the list; and inside a run every address is
the previous one plus one. (The list need not be non-empty, ascending or free of
duplicates for this to hold.) -/
theorem planner_partition {σ : Type} (dev : Device σ) (ctx : σ) (M pS pE : Nat)
    (L : List Nat) (hM : 1 ≤ M)
    (hna : (readRegisterList dev (some ctx) M pS pE L).aborted = false) :
    ((runsOf (readRegisterList dev (some ctx) M pS pE L).log).map (runSlice L)).flatten = L
    ∧ ∀ r ∈ runsOf (readRegisterList dev (some ctx) M pS pE L).log,
        1 ≤ r.2 ∧ r.2 ≤ M ∧ r.1 + r.2 ≤ L.length
        ∧ ∀ j, j + 1 < r.2 → L.getD (r.1 + j + 1) 0 = L.getD (r.1 + j) 0 + 1 := by
  rw [readRegisterList_some] at hna ⊢
  simp only at hna ⊢
  constructor
  · rw [pollLoop_cover dev L M L.length ctx hna]
    rcases pollLoop_exit dev L M L.length (initState ctx) rfl (by simp) with h | h
    · rw [hna] at h
      cases h
    · exact List.take_of_length_le h
  · intro r hr
    obtain ⟨m1, m2⟩ := mem_runsOf (pollLoop_logWellFormed dev L M L.length ctx) hr
    refine ⟨?_, ?_, ?_, ?_⟩
    · rw [m2]
      exact runLength_pos L M r.1
    · rw [m2]
      exact runLength_le_max L M r.1 hM
    · rw [m2]
      exact runLength_le_length L M r.1 m1
    · intro j hj
      rw [m2] at hj
      exact runLength_consecutive L M r.1 j hj

/-- The partition of `[40001, 40002, 40003, 40005]` with `M = 10`, on a device
that answers both reads. -/
theorem planner_partition_witness :
    1 ≤ 10
    ∧ (readRegisterList scriptDevice
        (some [ReadReply.data [10, 20, 30], ReadReply.data [7]]) 10 0 0
        [40001, 40002, 40003, 40005]).aborted = false
    ∧ (((runsOf (readRegisterList scriptDevice
          (some [ReadReply.data [10, 20, 30], ReadReply.data [7]]) 10 0 0
          [40001, 40002, 40003, 40005]).log).map
            (runSlice [40001, 40002, 40003, 40005])).flatten
          = [40001, 40002, 40003, 40005]
      ∧ ∀ r ∈ runsOf (readRegisterList scriptDevice
          (some [ReadReply.data [10, 20, 30], ReadReply.data [7]]) 10 0 0
          [40001, 40002, 40003, 40005]).log,
        1 ≤ r.2 ∧ r.2 ≤ 10 ∧ r.1 + r.2 ≤ [40001, 40002, 40003, 40005].length
        ∧ ∀ j, j + 1 < r.2 →
            [40001, 40002, 40003, 40005].getD (r.1 + j + 1) 0
              = [40001, 40002, 40003, 40005].getD (r.1 + j) 0 + 1) :=
  ⟨by decide, by decide,
    planner_partition scriptDevice [ReadReply.data [10, 20, 30], ReadReply.data [7]] 10 0 0
      [40001, 40002, 40003, 40005] (by decide) (by decide)⟩

/-- C8 (planner maximality). For every register list and every `M ≥ 1`, the runs
formed by `readRegisterList` are greedy: whenever a run is followed by another
run, the next run starts right after it, and either the run has length exactly
`M` or the first address of the next run is not the run's last address plus one.
With `M = 1` every run has length `1`. For the request
`[40001, 40002, 40003, 40005]` with `M = 10` (both reads answered) the runs are
exactly `(0, 3)` and `(3, 1)`, i.e. 40001..40003 and 40005. -/
theorem planner_maximal {σ : Type} (dev : Device σ) (ctx : σ) (M pS pE : Nat)
    (L : List Nat) (hM : 1 ≤ M) :
    List.Chain' (RunsChained L M) (runsOf (readRegisterList dev (some ctx) M pS pE L).log)
    ∧ (M = 1 → ∀ r ∈ runsOf (readRegisterList dev (some ctx) M pS pE L).log, r.2 = 1)
    ∧ runsOf (readRegisterList scriptDevice
        (some [ReadReply.data [10, 20, 30], ReadReply.data [7]]) 10 0 0
        [40001, 40002, 40003, 40005]).log = [(0, 3), (3, 1)] := by
  rw [readRegisterList_some]
  refine ⟨pollLoop_chain dev L M hM L.length ctx, ?_, by decide⟩
  intro h1 r hr
  obtain ⟨-, m2⟩ := mem_runsOf (pollLoop_logWellFormed dev L M L.length ctx) hr
  rw [m2, h1]
  exact runLength_one L r.1

/-- Maximality at `M = 1` on `[40001, 40002]`, on a device that answers both
reads: two runs of one register. -/
theorem planner_maximal_witness :
    1 ≤ 1
    ∧ runsOf (readRegisterList scriptDevice
        (some [ReadReply.data [1], ReadReply.data [2]]) 1 0 0 [40001, 40002]).log
        = [(0, 1), (1, 1)]
    ∧ List.Chain' (RunsChained [40001, 40002] 1)
        (runsOf (readRegisterList scriptDevice
          (some [ReadReply.data [1], ReadReply.data [2]]) 1 0 0 [40001, 40002]).log) :=
  ⟨by decide, by decide,
    (planner_maximal scriptDevice [ReadReply.data [1], ReadReply.data [2]] 1 0 0
      [40001, 40002] (by decide)).1⟩

end ModbusScope

namespace ModbusScope

/-! ## The keys of the result map -/

theorem getD_mem (L : List Nat) (i : Nat) (h : i < L.length) : L.getD i 0 ∈ L := by
  rw [List.getD_eq_getElem _ _ h]
  exact List.getElem_mem h

theorem mem_take_iff (L : List Nat) (n a : Nat) :
    a ∈ L.take n ↔ ∃ i, i < n ∧ i < L.length ∧ L.getD i 0 = a := by
  rw [List.mem_iff_getElem]
  constructor
  · rintro ⟨i, hi, h⟩
    simp only [List.length_take] at hi
    refine ⟨i, by omega, by omega, ?_⟩
    rw [List.getD_eq_getElem _ _ (by omega), ← h]
    simp
  · rintro ⟨i, h1, h2, h3⟩
    refine ⟨i, by simp; omega, ?_⟩
    rw [← h3, List.getD_eq_getElem _ _ h2]
    simp

theorem mem_iff_getD (L : List Nat) (a : Nat) :
    a ∈ L ↔ ∃ i, i < L.length ∧ L.getD i 0 = a := by
  have := mem_take_iff L L.length a
  rw [List.take_length] at this
  rw [this]
  constructor
  · rintro ⟨i, _, h2, h3⟩
    exact ⟨i, h2, h3⟩
  · rintro ⟨i, h2, h3⟩
    exact ⟨i, h2, h2, h3⟩

/-- The key the success branch writes for position `i` of a run is the `i`-th
register of the run: the narrowing to `quint16` does not change it. -/
theorem run_key (L : List Nat) (M regIndex i : Nat) (h16 : ∀ a ∈ L, a < 65536)
    (hr : regIndex < L.length) (hi : i < runLength L M regIndex) :
    (L.getD regIndex 0 + i) % 65536 = L.getD (regIndex + i) 0 := by
  have hle := runLength_le_length L M regIndex hr
  have hlt := h16 _ (getD_mem L (regIndex + i) (by omega))
  rw [runLength_offset L M regIndex i hi] at hlt ⊢
  exact Nat.mod_eq_of_lt hlt

theorem mem_keys_failAll (L : List Nat) (m : QMap) (k : Nat) :
    k ∈ QMap.keys (failAll L m) ↔ k ∈ QMap.keys m ∨ k ∈ L := by
  unfold failAll
  rw [mem_keys_foldl_insert (fun i => L.getD i 0) (fun _ => ⟨0, false⟩), mem_iff_getD L]

/-- Inserts that all carry the same value: every key written holds it. -/
theorem value_foldl_insert_const (f : Nat → Nat) (v : ModbusResult) (n : Nat) (m : QMap)
    (k : Nat) (h : ∃ j, j < n ∧ f j = k) :
    QMap.value ((List.range n).foldl (fun m i => QMap.insert m (f i) v) m) k = some v := by
  induction n with
  | zero =>
    obtain ⟨j, hj, -⟩ := h
    omega
  | succ n ih =>
    rw [foldl_insert_succ f (fun _ => v), QMap.value_insert]
    by_cases hk : k = f n
    · simp [hk]
    · simp only [hk, if_false]
      obtain ⟨j, hj, hfj⟩ := h
      have hjn : j ≠ n := fun e => hk (by rw [← hfj, e])
      exact ih ⟨j, by omega, hfj⟩

theorem value_failAll (L : List Nat) (m : QMap) (a : Nat) (ha : a ∈ L) :
    QMap.value (failAll L m) a = some ⟨0, false⟩ := by
  unfold failAll
  exact value_foldl_insert_const (fun i => L.getD i 0) ⟨0, false⟩ L.length m a
    ((mem_iff_getD L a).1 ha)

theorem keys_sorted_failAll (L : List Nat) (m : QMap) (h : (QMap.keys m).Pairwise (· < ·)) :
    (QMap.keys (failAll L m)).Pairwise (· < ·) := by
  unfold failAll
  exact keys_sorted_foldl_insert (fun i => L.getD i 0) (fun _ => ⟨0, false⟩) L.length m h

/-- The keys of the map after one pass: those before and the registers of the
run; all registers of the list when the pass gives up the cycle. The key order
is kept. -/
theorem pollBody_keys {σ : Type} (dev : Device σ) (L : List Nat) (M : Nat)
    (st : PollState σ) (h16 : ∀ a ∈ L, a < 65536) (hr : st.regIndex < L.length)
    (ha : st.aborted = false) :
    ((QMap.keys st.resultMap).Pairwise (· < ·) →
      (QMap.keys (pollBody dev L M st).resultMap).Pairwise (· < ·))
    ∧ ((pollBody dev L M st).aborted = false →
        ∀ k, k ∈ QMap.keys (pollBody dev L M st).resultMap
          ↔ k ∈ QMap.keys st.resultMap
            ∨ ∃ i, i < runLength L M st.regIndex ∧ L.getD (st.regIndex + i) 0 = k)
    ∧ ((pollBody dev L M st).aborted = true →
        ∀ k, k ∈ QMap.keys (pollBody dev L M st).resultMap
          ↔ k ∈ QMap.keys st.resultMap ∨ k ∈ L) := by
  rcases rc_cases (batchRead dev L M st).rc with h0 | h1 | h2
  · rw [pollBody_ok dev L M st h0]
    refine ⟨fun hs => keys_sorted_foldl_insert _ _ _ _ hs, ?_, ?_⟩
    · intro _ k
      simp only [insertRun]
      rw [mem_keys_foldl_insert (fun i => (L.getD st.regIndex 0 + i) % 65536)
        (fun i => ⟨(batchRead dev L M st).list.getD i 0, true⟩)]
      constructor
      · rintro (h | ⟨i, hi, h⟩)
        · exact Or.inl h
        · exact Or.inr ⟨i, hi, by rw [← run_key L M st.regIndex i h16 hr hi]; exact h⟩
      · rintro (h | ⟨i, hi, h⟩)
        · exact Or.inl h
        · exact Or.inr ⟨i, hi, by rw [run_key L M st.regIndex i h16 hr hi]; exact h⟩
    · intro hab
      have hst : st.aborted = true := hab
      rw [ha] at hst
      cases hst
  · by_cases hc : runLength L M st.regIndex = 1
    · rw [pollBody_split_one dev L M st h1 hc]
      refine ⟨fun hs => QMap.keys_sorted_insert _ _ _ hs, ?_, ?_⟩
      · intro _ k
        simp only [QMap.mem_keys_insert, hc]
        constructor
        · rintro (h | h)
          · exact Or.inr ⟨0, by omega, by rw [h]; rfl⟩
          · exact Or.inl h
        · rintro (h | ⟨i, hi, h⟩)
          · exact Or.inr h
          · have hi0 : i = 0 := by omega
            subst hi0
            exact Or.inl h.symm
      · intro hab
        have hst : st.aborted = true := hab
        rw [ha] at hst
        cases hst
    · obtain ⟨retries, -, -, -, -, -, hab', -, hk, hp⟩ :=
        retryLoop_spec dev L st.regIndex (runLength L M st.regIndex)
          { st with
            ctx := (batchRead dev L M st).ctx,
            registerDataList := (batchRead dev L M st).list,
            log := st.log ++ [batchCall dev L M st],
            error := st.error + 1 }
      rw [pollBody_split_many dev L M st h1 hc]
      refine ⟨fun hs => hp hs, ?_, ?_⟩
      · intro _ k
        exact hk k
      · intro hab
        have hst : st.aborted = true := by rw [← hab', ← hab]
        rw [ha] at hst
        cases hst
  · rw [pollBody_abort dev L M st h2]
    refine ⟨fun hs => keys_sorted_failAll L _ hs, ?_, ?_⟩
    · intro hab
      cases hab
    · intro _ k
      exact mem_keys_failAll L st.resultMap k

/-- The keys of the result map when the loop is left: the registers of the list
up to `regIndex`, or all of them when the cycle was given up; and they are in
strictly ascending order. -/
theorem pollLoop_keys {σ : Type} (dev : Device σ) (L : List Nat) (M : Nat)
    (h16 : ∀ a ∈ L, a < 65536) (fuel : Nat) (ctx : σ) :
    (QMap.keys (pollLoop dev L M fuel (initState ctx)).resultMap).Pairwise (· < ·)
    ∧ ((pollLoop dev L M fuel (initState ctx)).aborted = false →
        ∀ k, k ∈ QMap.keys (pollLoop dev L M fuel (initState ctx)).resultMap
          ↔ k ∈ L.take (pollLoop dev L M fuel (initState ctx)).regIndex)
    ∧ ((pollLoop dev L M fuel (initState ctx)).aborted = true →
        ∀ k, k ∈ QMap.keys (pollLoop dev L M fuel (initState ctx)).resultMap ↔ k ∈ L) := by
  refine pollLoop_inv dev L M
    (fun st : PollState σ => (QMap.keys st.resultMap).Pairwise (· < ·)
      ∧ (st.aborted = false → ∀ k, k ∈ QMap.keys st.resultMap ↔ k ∈ L.take st.regIndex)
      ∧ (st.aborted = true → ∀ k, k ∈ QMap.keys st.resultMap ↔ k ∈ L))
    ?_ fuel (initState ctx) ?_ rfl
  · rintro st ⟨hs, hk, -⟩ ha hr
    obtain ⟨p1, p2, p3⟩ := pollBody_keys dev L M st h16 hr ha
    have hle := runLength_le_length L M st.regIndex hr
    refine ⟨p1 hs, ?_, ?_⟩
    · intro hb k
      rw [p2 hb k, hk ha k, (pollBody_advance dev L M st hb).1, mem_take_iff, mem_take_iff]
      constructor
      · rintro (⟨i, h1, h2, h3⟩ | ⟨i, h1, h3⟩)
        · exact ⟨i, by omega, h2, h3⟩
        · exact ⟨st.regIndex + i, by omega, by omega, h3⟩
      · rintro ⟨i, h1, h2, h3⟩
        by_cases hlt : i < st.regIndex
        · exact Or.inl ⟨i, hlt, h2, h3⟩
        · refine Or.inr ⟨i - st.regIndex, by omega, ?_⟩
          rw [show st.regIndex + (i - st.regIndex) = i by omega]
          exact h3
    · intro hb k
      rw [p3 hb k, hk ha k]
      constructor
      · rintro (h | h)
        · exact List.mem_of_mem_take h
        · exact h
      · intro h
        exact Or.inr h
  · refine ⟨?_, ?_, ?_⟩
    · simp [initState, QMap.keys]
    · intro _ k
      simp [initState, QMap.keys]
    · intro h
      simp [initState] at h

/-- The keys of the emitted map are the registers of the list, in strictly
ascending order. -/
theorem readRegisterList_keys {σ : Type} (dev : Device σ) (pCtx : Option σ) (M pS pE : Nat)
    (L : List Nat) (h16 : ∀ a ∈ L, a < 65536) :
    (∀ a, a ∈ QMap.keys (readRegisterList dev pCtx M pS pE L).resultMap ↔ a ∈ L)
    ∧ (QMap.keys (readRegisterList dev pCtx M pS pE L).resultMap).Pairwise (· < ·) := by
  cases pCtx with
  | none =>
    refine ⟨?_, keys_sorted_failAll L [] (by simp [QMap.keys])⟩
    intro a
    show a ∈ QMap.keys (failAll L []) ↔ a ∈ L
    rw [mem_keys_failAll]
    simp [QMap.keys]
  | some ctx =>
    rw [readRegisterList_some]
    obtain ⟨p1, p2, p3⟩ := pollLoop_keys dev L M h16 L.length ctx
    refine ⟨?_, p1⟩
    intro a
    rcases pollLoop_exit dev L M L.length (initState ctx) rfl (by simp) with h | h
    · exact p3 h a
    · by_cases hb : (pollLoop dev L M L.length (initState ctx)).aborted = true
      · exact p3 hb a
      · rw [p2 (by simpa using hb) a, List.take_of_length_le h]

/-- C2 (coverage invariant). For every list of 16-bit register addresses, every
`M`, every device behaviour and whether or not the connection opens, the keys of
the result map that `readRegisterList` emits are exactly the addresses of the
list: every requested address is a key, every key is a requested address, and no
key occurs twice. -/
theorem result_keys_cover {σ : Type} (dev : Device σ) (pCtx : Option σ) (M pS pE : Nat)
    (L : List Nat) (h16 : ∀ a ∈ L, a < 65536) :
    (∀ a, a ∈ QMap.keys (readRegisterList dev pCtx M pS pE L).resultMap ↔ a ∈ L)
    ∧ (QMap.keys (readRegisterList dev pCtx M pS pE L).resultMap).Nodup := by
  obtain ⟨hmem, hsorted⟩ := readRegisterList_keys dev pCtx M pS pE L h16
  constructor
  · intro a
    exact hmem a
  · exact hsorted.imp (fun hab => Nat.ne_of_lt hab)

/-- Coverage on `[40001, 40002, 40003, 40005]` with `M = 10`, the first read
answered and the second one timing out. -/
theorem result_keys_cover_witness :
    (∀ a ∈ [40001, 40002, 40003, 40005], a < 65536)
    ∧ QMap.keys (readRegisterList scriptDevice
        (some [ReadReply.data [10, 20, 30], ReadReply.error 110]) 10 0 0
        [40001, 40002, 40003, 40005]).resultMap = [40001, 40002, 40003, 40005]
    ∧ (∀ a, a ∈ QMap.keys (readRegisterList scriptDevice
          (some [ReadReply.data [10, 20, 30], ReadReply.error 110]) 10 0 0
          [40001, 40002, 40003, 40005]).resultMap ↔ a ∈ [40001, 40002, 40003, 40005]) :=
  ⟨by decide, by decide,
    (result_keys_cover scriptDevice (some [ReadReply.data [10, 20, 30], ReadReply.error 110])
      10 0 0 [40001, 40002, 40003, 40005] (by decide)).1⟩

end ModbusScope

namespace ModbusScope

/-! ## Connection failure and the counters -/

/-- C6, the claim as stated fails. With the connection refused and the request
`[40010, 40011]` the error counter goes up by `1`, not by the request size `2`
(the result map and the success counter are as the claim says). -/
theorem connection_failed_counterexample :
    ¬ ((readRegisterList scriptDevice none 10 7 7 [40010, 40011]).errorCount
        = 7 + [40010, 40011].length) := by
  decide

/-- C6 as amended. For every request list, if the connection cannot be opened
(`openPort` returns null), no read is attempted, the emitted result marks every
requested address Failed, the cycle counts no success and exactly one error (one
failed communication, whatever the size of the request), and the totals handed
to `setCommunicationStats` are the previous totals plus `0` and plus `1` in
`quint32` arithmetic: the success total is unchanged and the error total is the
previous one plus one unless that sum reaches `2^32`. -/
theorem connection_failed {σ : Type} (dev : Device σ) (M pS pE : Nat) (L : List Nat) :
    (readRegisterList dev none M pS pE L).log = []
    ∧ (∀ a ∈ L, QMap.value (readRegisterList dev none M pS pE L).resultMap a
        = some ModbusResult.failed)
    ∧ (readRegisterList dev none M pS pE L).success = 0
    ∧ (readRegisterList dev none M pS pE L).error = 1
    ∧ (readRegisterList dev none M pS pE L).successCount = pS % 4294967296
    ∧ (readRegisterList dev none M pS pE L).errorCount = (pE + 1) % 4294967296
    ∧ (pS < 4294967296 → (readRegisterList dev none M pS pE L).successCount = pS)
    ∧ (pE + 1 < 4294967296 → (readRegisterList dev none M pS pE L).errorCount = pE + 1) := by
  refine ⟨rfl, ?_, rfl, rfl, rfl, rfl, ?_, ?_⟩
  · intro a ha
    exact value_failAll L [] a ha
  · intro h
    show (pS + 0) % 4294967296 = pS
    exact Nat.mod_eq_of_lt h
  · intro h
    show (pE + (0 + 1)) % 4294967296 = pE + 1
    exact Nat.mod_eq_of_lt h

/-- Connection refused on `[40010, 40011]`: no read, both addresses Failed, the
success total stays 7 and the error total goes from 7 to 8; from the largest
32-bit total the error total wraps to 0. -/
theorem connection_failed_witness :
    (readRegisterList scriptDevice none 10 7 7 [40010, 40011]).resultMap
      = [(40010, ModbusResult.failed), (40011, ModbusResult.failed)]
    ∧ (readRegisterList scriptDevice none 10 7 7 [40010, 40011]).log = []
    ∧ (readRegisterList scriptDevice none 10 7 7 [40010, 40011]).error = 1
    ∧ (7 < 4294967296
      ∧ (readRegisterList scriptDevice none 10 7 7 [40010, 40011]).successCount = 7)
    ∧ (7 + 1 < 4294967296
      ∧ (readRegisterList scriptDevice none 10 7 7 [40010, 40011]).errorCount = 7 + 1)
    ∧ (readRegisterList scriptDevice none 10 7 4294967295 [40010, 40011]).errorCount = 0 :=
  ⟨by decide, (connection_failed scriptDevice 10 7 7 [40010, 40011]).1,
    (connection_failed scriptDevice 10 7 7 [40010, 40011]).2.2.2.1,
    ⟨by decide, (connection_failed scriptDevice 10 7 7 [40010, 40011]).2.2.2.2.2.2.1
      (by decide)⟩,
    ⟨by decide, (connection_failed scriptDevice 10 7 7 [40010, 40011]).2.2.2.2.2.2.2
      (by decide)⟩,
    by decide⟩

/-- The counters of the loop state count the recorded reads. -/
theorem pollLoop_counters {σ : Type} (dev : Device σ) (L : List Nat) (M : Nat)
    (fuel : Nat) (ctx : σ) :
    (pollLoop dev L M fuel (initState ctx)).success
      = okCount (pollLoop dev L M fuel (initState ctx)).log
    ∧ (pollLoop dev L M fuel (initState ctx)).error
      = errCount (pollLoop dev L M fuel (initState ctx)).log := by
  refine pollLoop_inv dev L M
    (fun st : PollState σ => st.success = okCount st.log ∧ st.error = errCount st.log)
    ?_ fuel (initState ctx) ?_ rfl
  · rintro st ⟨h1, h2⟩ _ _
    obtain ⟨retries, hlog, -, -, hs, he⟩ := pollBody_log dev L M st
    rw [hlog, okCount_append, errCount_append, hs, he, h1, h2]
    exact ⟨rfl, rfl⟩
  · exact ⟨rfl, rfl⟩

/-- C7, the claim as stated fails. A run of three registers whose read succeeds
records three registers Ok and adds `1`, not `3`, to the success counter; and
the request `[40010, 40011]` with a range error on the run, then 40010 read and
40011 refused, records one Ok and one Failed and adds `1` to the success counter
and `2`, not `1`, to the error counter. No read gives up either cycle. -/
theorem counters_counterexample :
    ((readRegisterList scriptDevice (some [ReadReply.data [10, 20, 30]]) 10 0 0
        [40001, 40002, 40003]).aborted = false
      ∧ okRegisters (readRegisterList scriptDevice (some [ReadReply.data [10, 20, 30]]) 10 0 0
        [40001, 40002, 40003]).resultMap = 3
      ∧ ¬ ((readRegisterList scriptDevice (some [ReadReply.data [10, 20, 30]]) 10 0 0
        [40001, 40002, 40003]).success = 3))
    ∧ ((readRegisterList (registerFileDevice (fun w => if w = 9 then some 5 else none))
        (some ()) 10 0 0 [40010, 40011]).aborted = false
      ∧ failedRegisters (readRegisterList
        (registerFileDevice (fun w => if w = 9 then some 5 else none))
        (some ()) 10 0 0 [40010, 40011]).resultMap = 1
      ∧ ¬ ((readRegisterList (registerFileDevice (fun w => if w = 9 then some 5 else none))
        (some ()) 10 0 0 [40010, 40011]).error = 1)) := by
  decide

/-- C7 as amended. The counters count reads, not registers: for every cycle in
which the connection opens, the amount the cycle adds to the success counter is
the number of reads (of a run, or of a single register in the split branch) that
returned `0`, and the amount it adds to the error counter is the number of reads
that returned an error; the totals handed to `setCommunicationStats` are the
previous totals plus these amounts in `quint32` arithmetic, hence exactly the
sums unless they reach `2^32`. In particular a run whose read succeeds adds `1`
to the success counter whatever its length, and a run of length `> 1` whose read
returns a range error adds `1` to the error counter for that read, and then one
success per successful separate read and one error per failed separate read. -/
theorem counters_count_reads {σ : Type} (dev : Device σ) (ctx : σ) (M pS pE : Nat)
    (L : List Nat) :
    (readRegisterList dev (some ctx) M pS pE L).success
        = okCount (readRegisterList dev (some ctx) M pS pE L).log
    ∧ (readRegisterList dev (some ctx) M pS pE L).error
        = errCount (readRegisterList dev (some ctx) M pS pE L).log
    ∧ (readRegisterList dev (some ctx) M pS pE L).successCount
        = (pS + okCount (readRegisterList dev (some ctx) M pS pE L).log) % 4294967296
    ∧ (readRegisterList dev (some ctx) M pS pE L).errorCount
        = (pE + errCount (readRegisterList dev (some ctx) M pS pE L).log) % 4294967296
    ∧ (pS + okCount (readRegisterList dev (some ctx) M pS pE L).log < 4294967296 →
        (readRegisterList dev (some ctx) M pS pE L).successCount
          = pS + okCount (readRegisterList dev (some ctx) M pS pE L).log)
    ∧ (pE + errCount (readRegisterList dev (some ctx) M pS pE L).log < 4294967296 →
        (readRegisterList dev (some ctx) M pS pE L).errorCount
          = pE + errCount (readRegisterList dev (some ctx) M pS pE L).log)
    ∧ (∀ st : PollState σ, (batchRead dev L M st).rc = 0 →
        (pollBody dev L M st).success = st.success + 1
        ∧ (pollBody dev L M st).error = st.error)
    ∧ (∀ st : PollState σ, isSplitCode (batchRead dev L M st).rc = true →
        1 < runLength L M st.regIndex →
        ∃ retries : List ReadCall,
          (pollBody dev L M st).log = st.log ++ batchCall dev L M st :: retries
          ∧ retries.length = runLength L M st.regIndex
          ∧ (pollBody dev L M st).success = st.success + okCount retries
          ∧ (pollBody dev L M st).error = st.error + 1 + errCount retries) := by
  rw [readRegisterList_some]
  obtain ⟨h1, h2⟩ := pollLoop_counters dev L M L.length ctx
  refine ⟨h1, h2, by simp only [h1], by simp only [h2], ?_, ?_, ?_, ?_⟩
  · intro h
    simp only [h1]
    exact Nat.mod_eq_of_lt h
  · intro h
    simp only [h2]
    exact Nat.mod_eq_of_lt h
  · intro st h0
    rw [pollBody_ok dev L M st h0]
    exact ⟨rfl, rfl⟩
  · intro st hs hc
    obtain ⟨retries, hlog, hlen, -, hsu, her, -, -, -, -⟩ :=
      retryLoop_spec dev L st.regIndex (runLength L M st.regIndex)
        { st with
          ctx := (batchRead dev L M st).ctx,
          registerDataList := (batchRead dev L M st).list,
          log := st.log ++ [batchCall dev L M st],
          error := st.error + 1 }
    refine ⟨retries, ?_, hlen, ?_, ?_⟩
    · rw [pollBody_split_many dev L M st hs (by omega)]
      simp only [hlog, List.append_assoc, List.singleton_append]
    · rw [pollBody_split_many dev L M st hs (by omega)]
      exact hsu
    · rw [pollBody_split_many dev L M st hs (by omega)]
      exact her

end ModbusScope

namespace ModbusScope

/-! ## Giving up the cycle -/

/-- While the cycle goes on, no recorded read is fatal; once it is given up, the
fatal read is the last one recorded, no earlier one is fatal, and every register
of the list is marked failed. -/
theorem pollLoop_abort {σ : Type} (dev : Device σ) (L : List Nat) (M : Nat)
    (fuel : Nat) (ctx : σ) :
    ((pollLoop dev L M fuel (initState ctx)).aborted = false →
      ∀ c ∈ (pollLoop dev L M fuel (initState ctx)).log, isFatal c = false)
    ∧ ((pollLoop dev L M fuel (initState ctx)).aborted = true →
      ∃ pre c, (pollLoop dev L M fuel (initState ctx)).log = pre ++ [c]
        ∧ isFatal c = true ∧ (∀ c' ∈ pre, isFatal c' = false)
        ∧ ∀ a ∈ L, QMap.value (pollLoop dev L M fuel (initState ctx)).resultMap a
            = some ModbusResult.failed) := by
  refine pollLoop_inv dev L M
    (fun st : PollState σ =>
      (st.aborted = false → ∀ c ∈ st.log, isFatal c = false)
      ∧ (st.aborted = true →
        ∃ pre c, st.log = pre ++ [c] ∧ isFatal c = true ∧ (∀ c' ∈ pre, isFatal c' = false)
          ∧ ∀ a ∈ L, QMap.value st.resultMap a = some ModbusResult.failed))
    ?_ fuel (initState ctx) ?_ rfl
  · rintro st ⟨h1, -⟩ ha _
    obtain ⟨retries, hlog, hret, hnil, -, -⟩ := pollBody_log dev L M st
    obtain ⟨-, b2, -, -, b5⟩ := batchCall_fields dev L M st
    constructor
    · intro hb c hc
      rw [hlog] at hc
      rcases List.mem_append.1 hc with hc | hc
      · exact h1 ha c hc
      · rcases List.mem_cons.1 hc with hc | hc
        · subst hc
          simp only [isFatal, b2, b5, (pollBody_advance dev L M st hb).2, Bool.and_false]
        · simp only [isFatal, (hret c hc).1, Bool.false_and]
    · intro hb
      rcases rc_cases (batchRead dev L M st).rc with h0 | hs | hl
      · rw [pollBody_ok dev L M st h0] at hb
        have hst : st.aborted = true := hb
        rw [ha] at hst
        cases hst
      · have hl : isLinkError (batchRead dev L M st).rc = false := by
          simp [isLinkError, hs]
        by_cases hc : runLength L M st.regIndex = 1
        · rw [pollBody_split_one dev L M st hs hc] at hb
          have hst : st.aborted = true := hb
          rw [ha] at hst
          cases hst
        · obtain ⟨-, -, -, -, -, -, hab', -, -, -⟩ :=
            retryLoop_spec dev L st.regIndex (runLength L M st.regIndex)
              { st with
                ctx := (batchRead dev L M st).ctx,
                registerDataList := (batchRead dev L M st).list,
                log := st.log ++ [batchCall dev L M st],
                error := st.error + 1 }
          rw [pollBody_split_many dev L M st hs hc] at hb
          have hst : st.aborted = true := by rw [← hab', ← hb]
          rw [ha] at hst
          cases hst
      · refine ⟨st.log, batchCall dev L M st, ?_, ?_, h1 ha, ?_⟩
        · rw [hlog, hnil hl]
        · simp only [isFatal, b2, b5, hl, Bool.and_self]
        · intro a haL
          rw [pollBody_abort dev L M st hl]
          exact value_failAll L st.resultMap a haL
  · constructor
    · intro _ c hc
      simp [initState] at hc
    · intro h
      simp [initState] at h

/-- C4 (fatal abort). For every request, every `M` and every device: if the log
of the cycle is `pre ++ c :: post` where `c` is the read of a run that returned
a link error (neither `0` nor one of the two range codes), then `post` is empty
(that read is the last read issued), the cycle was given up, and in the emitted
result every requested address from the start of that run on (the failing run
and all later, unprocessed runs) is Failed. -/
theorem fatal_abort {σ : Type} (dev : Device σ) (ctx : σ) (M pS pE : Nat) (L : List Nat)
    (pre post : List ReadCall) (c : ReadCall)
    (hlog : (readRegisterList dev (some ctx) M pS pE L).log = pre ++ c :: post)
    (hb : c.batch = true) (hl : isLinkError c.rc = true) :
    post = []
    ∧ (readRegisterList dev (some ctx) M pS pE L).aborted = true
    ∧ ∀ a ∈ L.drop c.index,
        QMap.value (readRegisterList dev (some ctx) M pS pE L).resultMap a
          = some ModbusResult.failed := by
  rw [readRegisterList_some] at hlog ⊢
  simp only at hlog ⊢
  obtain ⟨h1, h2⟩ := pollLoop_abort dev L M L.length ctx
  have hfatal : isFatal c = true := by simp [isFatal, hb, hl]
  have hab : (pollLoop dev L M L.length (initState ctx)).aborted = true := by
    by_contra hna
    have := h1 (by simpa using hna) c (by rw [hlog]; simp)
    rw [hfatal] at this
    cases this
  obtain ⟨pre', c', hlog', -, hpre, hall⟩ := h2 hab
  refine ⟨?_, hab, fun a ha => hall a (List.mem_of_mem_drop ha)⟩
  rcases List.eq_nil_or_concat post with hp | ⟨q, x, hp⟩
  · exact hp
  · exfalso
    rw [hlog', hp] at hlog
    have e : pre' ++ [c'] = (pre ++ c :: q) ++ [x] := by
      rw [hlog]
      simp
    have := (List.append_inj' e rfl).1
    have hmem : c ∈ pre' := by
      rw [this]
      simp
    have := hpre c hmem
    rw [hfatal] at this
    cases this

/-- The fatal abort on `[40001, 40002, 40003, 40005]` with `M = 10`: the first
run is read, the read of the second run times out. -/
theorem fatal_abort_witness :
    (readRegisterList scriptDevice
        (some [ReadReply.data [10, 20, 30], ReadReply.error 110, ReadReply.data [1]]) 10 0 0
        [40001, 40002, 40003, 40005]).log
      = [⟨0, true, 0, 3, 0, [10, 20, 30]⟩] ++ ⟨3, true, 4, 1, 110, []⟩ :: []
    ∧ isLinkError 110 = true
    ∧ ∀ a ∈ [40001, 40002, 40003, 40005].drop 3,
        QMap.value (readRegisterList scriptDevice
          (some [ReadReply.data [10, 20, 30], ReadReply.error 110, ReadReply.data [1]]) 10 0 0
          [40001, 40002, 40003, 40005]).resultMap a = some ModbusResult.failed :=
  ⟨by decide, by decide,
    (fatal_abort scriptDevice
      [ReadReply.data [10, 20, 30], ReadReply.error 110, ReadReply.data [1]] 10 0 0
      [40001, 40002, 40003, 40005] [⟨0, true, 0, 3, 0, [10, 20, 30]⟩] []
      ⟨3, true, 4, 1, 110, []⟩ (by decide) rfl (by decide)).2.2⟩

/-- C5, the claim as stated fails. On `[40001, 40002, 40003, 40005]` with
`M = 10`, the first run read as `[10, 20, 30]` and the second run's read timing
out: after the first pass of the loop 40001 is recorded `Ok(10)`, and in the
emitted result it is Failed; the emitted map is all Failed, not
`{40001: Ok(10), 40002: Ok(20), 40003: Ok(30), 40005: Failed}`. -/
theorem abort_keeps_resolved_counterexample :
    QMap.value (pollBody scriptDevice [40001, 40002, 40003, 40005] 10
        (initState [ReadReply.data [10, 20, 30], ReadReply.error 110])).resultMap 40001
      = some (ModbusResult.ok 10)
    ∧ ¬ (QMap.value (readRegisterList scriptDevice
          (some [ReadReply.data [10, 20, 30], ReadReply.error 110]) 10 0 0
          [40001, 40002, 40003, 40005]).resultMap 40001 = some (ModbusResult.ok 10))
    ∧ ¬ ((readRegisterList scriptDevice
          (some [ReadReply.data [10, 20, 30], ReadReply.error 110]) 10 0 0
          [40001, 40002, 40003, 40005]).resultMap
        = [(40001, ModbusResult.ok 10), (40002, ModbusResult.ok 20),
            (40003, ModbusResult.ok 30), (40005, ModbusResult.failed)]) := by
  decide

/-- C5 as amended. A link-fatal abort marks every requested address Failed, the
ones resolved by earlier runs included: for every request, if the read of some
run returns a link error, every address of the request is Failed in the emitted
result (an address recorded `Ok(v)` by an earlier run is overwritten). On
`[40001, 40002, 40003, 40005]`, `M = 10`, first run `[10, 20, 30]`, second run
link error, the emitted result is
`{40001: Failed, 40002: Failed, 40003: Failed, 40005: Failed}`. -/
theorem abort_marks_all_failed {σ : Type} (dev : Device σ) (ctx : σ) (M pS pE : Nat)
    (L : List Nat) (c : ReadCall)
    (hc : c ∈ (readRegisterList dev (some ctx) M pS pE L).log)
    (hb : c.batch = true) (hl : isLinkError c.rc = true) :
    ∀ a ∈ L, QMap.value (readRegisterList dev (some ctx) M pS pE L).resultMap a
      = some ModbusResult.failed := by
  rw [readRegisterList_some] at hc ⊢
  simp only at hc ⊢
  obtain ⟨h1, h2⟩ := pollLoop_abort dev L M L.length ctx
  have hfatal : isFatal c = true := by simp [isFatal, hb, hl]
  have hab : (pollLoop dev L M L.length (initState ctx)).aborted = true := by
    by_contra hna
    have := h1 (by simpa using hna) c hc
    rw [hfatal] at this
    cases this
  obtain ⟨pre', c', -, -, -, hall⟩ := h2 hab
  exact hall

/-- The spec's example of a link-fatal abort: the emitted result is all
Failed. -/
theorem abort_marks_all_failed_witness :
    (⟨3, true, 4, 1, 110, []⟩ : ReadCall) ∈ (readRegisterList scriptDevice
        (some [ReadReply.data [10, 20, 30], ReadReply.error 110]) 10 0 0
        [40001, 40002, 40003, 40005]).log
    ∧ isLinkError 110 = true
    ∧ (readRegisterList scriptDevice
        (some [ReadReply.data [10, 20, 30], ReadReply.error 110]) 10 0 0
        [40001, 40002, 40003, 40005]).resultMap
      = [(40001, ModbusResult.failed), (40002, ModbusResult.failed),
          (40003, ModbusResult.failed), (40005, ModbusResult.failed)]
    ∧ ∀ a ∈ [40001, 40002, 40003, 40005],
        QMap.value (readRegisterList scriptDevice
          (some [ReadReply.data [10, 20, 30], ReadReply.error 110]) 10 0 0
          [40001, 40002, 40003, 40005]).resultMap a = some ModbusResult.failed :=
  ⟨by decide, by decide, by decide,
    abort_marks_all_failed scriptDevice [ReadReply.data [10, 20, 30], ReadReply.error 110]
      10 0 0 [40001, 40002, 40003, 40005] ⟨3, true, 4, 1, 110, []⟩ (by decide) rfl
      (by decide)⟩

end ModbusScope

namespace ModbusScope

/-! ## Wire addresses -/

/-- The wire address of an external address `a ≥ 40001` is `a - 40001`. -/
theorem toQuint16_offset (a : Nat) (h1 : 40001 ≤ a) (h2 : a < 65536) :
    toQuint16 ((a : Int) - 40001) = a - 40001 := by
  unfold toQuint16
  have e : ((a : Int) - 40001) % 65536 = ((a - 40001 : Nat) : Int) := by omega
  rw [e]
  exact Int.toNat_ofNat _

/-- The wire address of an external address `a < 40001` wraps around:
it is `a + 25535`. -/
theorem toQuint16_wrap (a : Nat) (h1 : a < 40001) :
    toQuint16 ((a : Int) - 40001) = a + 25535 := by
  unfold toQuint16
  have e : ((a : Int) - 40001) % 65536 = ((a + 25535 : Nat) : Int) := by omega
  rw [e]
  exact Int.toNat_ofNat _

end ModbusScope

namespace ModbusScope

/-! ## Splitting a run -/

/-- The registers of a run are pairwise different. -/
theorem run_distinct (L : List Nat) (M regIndex i j : Nat)
    (hi : i < runLength L M regIndex) (hj : j < runLength L M regIndex) (hij : i ≠ j) :
    L.getD (regIndex + j) 0 ≠ L.getD (regIndex + i) 0 := by
  rw [runLength_offset L M regIndex i hi, runLength_offset L M regIndex j hj]
  omega

/-- C10 (splitting never aborts the cycle). In any pass of the loop in which the
read of the run returns a range error (illegal data address or illegal data
value): the pass does not leave the loop through `break`, it moves `regIndex` to
the start of the next run, and the loop goes on from there (or ends when the run
was the last). When the run has one register, no further read is made and the
register is recorded Failed. When the run has `count > 1` registers, exactly
`count` separate reads follow, the `i`-th one for the `i`-th address of the run
at its wire address with count 1, and whatever that read returns the address is
recorded Ok with the value read (return code `0`) or Failed (any other return
code). -/
theorem split_never_aborts {σ : Type} (dev : Device σ) (L : List Nat) (M : Nat)
    (st : PollState σ) (fuel : Nat)
    (hr : st.regIndex < L.length) (ha : st.aborted = false)
    (hs : isSplitCode (batchRead dev L M st).rc = true) :
    (pollBody dev L M st).aborted = false
    ∧ (pollBody dev L M st).regIndex = st.regIndex + runLength L M st.regIndex
    ∧ (pollBody dev L M st).regIndex ≤ L.length
    ∧ pollLoop dev L M (fuel + 1) st = pollLoop dev L M fuel (pollBody dev L M st)
    ∧ (runLength L M st.regIndex = 1 →
        (pollBody dev L M st).log = st.log ++ [batchCall dev L M st]
        ∧ QMap.value (pollBody dev L M st).resultMap (L.getD st.regIndex 0)
            = some ModbusResult.failed)
    ∧ (1 < runLength L M st.regIndex →
        ∃ retries : List ReadCall,
          (pollBody dev L M st).log = st.log ++ batchCall dev L M st :: retries
          ∧ retries.length = runLength L M st.regIndex
          ∧ ∀ i, i < runLength L M st.regIndex →
              ∃ c, retries[i]? = some c
                ∧ c.index = st.regIndex + i ∧ c.batch = false
                ∧ c.startReg = toQuint16 ((L.getD (st.regIndex + i) 0 : Int) - 40001)
                ∧ c.num = 1
                ∧ QMap.value (pollBody dev L M st).resultMap (L.getD (st.regIndex + i) 0)
                    = some (retryResult c)) := by
  have hle := runLength_le_length L M st.regIndex hr
  have hab : (pollBody dev L M st).aborted = false := by
    by_cases hc : runLength L M st.regIndex = 1
    · rw [pollBody_split_one dev L M st hs hc]
      exact ha
    · obtain ⟨-, -, -, -, -, -, hab', -, -, -⟩ :=
        retryLoop_spec dev L st.regIndex (runLength L M st.regIndex)
          { st with
            ctx := (batchRead dev L M st).ctx,
            registerDataList := (batchRead dev L M st).list,
            log := st.log ++ [batchCall dev L M st],
            error := st.error + 1 }
      rw [pollBody_split_many dev L M st hs hc]
      exact hab'.trans ha
  have hadv := (pollBody_advance dev L M st hab).1
  refine ⟨hab, hadv, by omega, ?_, ?_, ?_⟩
  · simp only [pollLoop, hr, if_true, hab, Bool.false_eq_true, if_false]
  · intro hc
    rw [pollBody_split_one dev L M st hs hc]
    refine ⟨rfl, ?_⟩
    simp only [QMap.value_insert, if_true]
    rfl
  · intro hc
    obtain ⟨retries, hlog, hlen, hall, -, -, -, -, -, -⟩ :=
      retryLoop_spec dev L st.regIndex (runLength L M st.regIndex)
        { st with
          ctx := (batchRead dev L M st).ctx,
          registerDataList := (batchRead dev L M st).list,
          log := st.log ++ [batchCall dev L M st],
          error := st.error + 1 }
    refine ⟨retries, ?_, hlen, ?_⟩
    · rw [pollBody_split_many dev L M st hs (by omega)]
      simp only [hlog, List.append_assoc, List.singleton_append]
    · intro i hi
      obtain ⟨c, d0, d1, d2, d3, d4, d5⟩ := hall i hi
      refine ⟨c, d0, d1, d2, d3, d4, ?_⟩
      rw [pollBody_split_many dev L M st hs (by omega)]
      exact d5 (fun j h1 h2 => run_distinct L M st.regIndex i j hi h2 (by omega))

/-- A split with a separate read that times out: request `[40010, 40011, 40020]`,
`M = 10`; the read of the run 40010..40011 returns "illegal data address", the
separate read of 40010 gives 5, the separate read of 40011 times out (110), and
the cycle goes on with the run of 40020, which is read as 8. -/
theorem split_never_aborts_witness :
    (initState [ReadReply.error 112345680, ReadReply.data [5], ReadReply.error 110,
        ReadReply.data [8]]).regIndex < [40010, 40011, 40020].length
    ∧ isSplitCode (batchRead scriptDevice [40010, 40011, 40020] 10
        (initState [ReadReply.error 112345680, ReadReply.data [5], ReadReply.error 110,
          ReadReply.data [8]])).rc = true
    ∧ (readRegisterList scriptDevice
        (some [ReadReply.error 112345680, ReadReply.data [5], ReadReply.error 110,
          ReadReply.data [8]]) 10 0 0 [40010, 40011, 40020]).resultMap
      = [(40010, ModbusResult.ok 5), (40011, ModbusResult.failed), (40020, ModbusResult.ok 8)]
    ∧ (pollBody scriptDevice [40010, 40011, 40020] 10
        (initState [ReadReply.error 112345680, ReadReply.data [5], ReadReply.error 110,
          ReadReply.data [8]])).aborted = false
    ∧ (pollBody scriptDevice [40010, 40011, 40020] 10
        (initState [ReadReply.error 112345680, ReadReply.data [5], ReadReply.error 110,
          ReadReply.data [8]])).regIndex = 0 + 2 :=
  ⟨by decide, by decide, by decide,
    (split_never_aborts scriptDevice [40010, 40011, 40020] 10
      (initState [ReadReply.error 112345680, ReadReply.data [5], ReadReply.error 110,
        ReadReply.data [8]]) 0 (by decide) rfl (by decide)).1,
    (split_never_aborts scriptDevice [40010, 40011, 40020] 10
      (initState [ReadReply.error 112345680, ReadReply.data [5], ReadReply.error 110,
        ReadReply.data [8]]) 0 (by decide) rfl (by decide)).2.1⟩

end ModbusScope

namespace ModbusScope

/-! ## Split equivalence -/

theorem foldl_range_congr {α : Type} (f g : α → Nat → α) (n : Nat) (a : α)
    (h : ∀ i, i < n → ∀ x, f x i = g x i) :
    (List.range n).foldl f a = (List.range n).foldl g a := by
  induction n with
  | zero => rfl
  | succ n ih =>
    rw [List.range_succ, List.foldl_append, List.foldl_append, ih (fun i hi => h i (by omega))]
    simp only [List.foldl_cons, List.foldl_nil]
    exact h n (by omega) _

theorem foldl_range_add {α : Type} (f : α → Nat → α) (n k : Nat) (a : α) :
    (List.range (n + k)).foldl f a
      = (List.range k).foldl (fun x i => f x (n + i)) ((List.range n).foldl f a) := by
  induction k with
  | zero => rfl
  | succ k ih =>
    rw [show n + (k + 1) = (n + k) + 1 by omega, List.range_succ, List.foldl_append, ih,
      List.range_succ, List.foldl_append]
    rfl

/-- The wire address of the `i`-th register after `a` is the wire address of `a`
plus `i`, modulo `2^16`. -/
theorem toQuint16_add (a i : Nat) (h : a + i < 65536) :
    toQuint16 (((a + i : Nat) : Int) - 40001) = (toQuint16 ((a : Int) - 40001) + i) % 65536 := by
  by_cases h1 : 40001 ≤ a
  · rw [toQuint16_offset a h1 (by omega), toQuint16_offset (a + i) (by omega) h]
    omega
  · rw [toQuint16_wrap a (by omega)]
    by_cases h2 : 40001 ≤ a + i
    · rw [toQuint16_offset (a + i) h2 h]
      omega
    · rw [toQuint16_wrap (a + i) (by omega)]
      omega

theorem getD_map_range (f : Nat → Nat) (n i : Nat) (h : i < n) :
    ((List.range n).map f).getD i 0 = f i := by
  rw [List.getD_eq_getElem _ _ (by simpa using h)]
  simp

/-- What `readRegisters` returns on a device that refuses reads only with range
errors. -/
theorem readRegisters_rangeOnly {σ : Type} (dev : Device σ) (reg : Nat → Option Nat)
    (hdev : RangeOnlyDevice dev reg) (s : σ) (x : Int) (nb : Nat) (l : List Nat) :
    ((∀ i, i < nb → (reg ((toQuint16 x + i) % 65536)).isSome = true) →
      (readRegisters dev s x nb l).rc = 0
      ∧ ∀ i, i < nb → (readRegisters dev s x nb l).list.getD i 0
          = (reg ((toQuint16 x + i) % 65536)).getD 0 % 65536)
    ∧ (¬ (∀ i, i < nb → (reg ((toQuint16 x + i) % 65536)).isSome = true) →
      isSplitCode (readRegisters dev s x nb l).rc = true) := by
  obtain ⟨h1, h2⟩ := hdev s (toQuint16 x) nb
  constructor
  · intro hall
    obtain ⟨buf, hbuf, hval⟩ := h1 hall
    have e : dev s (toQuint16 x) nb = ((dev s (toQuint16 x) nb).1, ReadReply.data buf) := by
      rw [← hbuf]
    unfold readRegisters
    rw [e]
    refine ⟨rfl, ?_⟩
    intro i hi
    show ((List.range nb).map (fun i => buf.getD i 0 % 65536)).getD i 0 = _
    rw [getD_map_range _ nb i hi, hval i hi]
  · intro hnot
    obtain ⟨err, herr, hsplit⟩ := h2 hnot
    have e : dev s (toQuint16 x) nb = ((dev s (toQuint16 x) nb).1, ReadReply.error err) := by
      rw [← herr]
    unfold readRegisters
    rw [e]
    exact hsplit

end ModbusScope

namespace ModbusScope

theorem toQuint16_lt (x : Int) : toQuint16 x < 65536 := by
  unfold toQuint16
  have h1 : 0 ≤ x % 65536 := Int.emod_nonneg _ (by decide)
  have h2 : x % 65536 < 65536 := Int.emod_lt_of_pos _ (by decide)
  omega

/-- On a device that refuses reads only with range errors, a separate read
records the register's own outcome. -/
theorem retryStep_rangeOnly {σ : Type} (dev : Device σ) (reg : Nat → Option Nat)
    (hdev : RangeOnlyDevice dev reg) (L : List Nat) (regIndex : Nat) (st : PollState σ)
    (i : Nat) :
    (retryStep dev L regIndex st i).resultMap
      = QMap.insert st.resultMap (L.getD (regIndex + i) 0)
          (singleOutcome reg (L.getD (regIndex + i) 0)) := by
  obtain ⟨h1, h2⟩ := readRegisters_rangeOnly dev reg hdev st.ctx
    ((L.getD (regIndex + i) 0 : Int) - 40001) 1 st.registerDataList
  have hw : (toQuint16 ((L.getD (regIndex + i) 0 : Int) - 40001) + 0) % 65536
      = toQuint16 ((L.getD (regIndex + i) 0 : Int) - 40001) := by
    have := toQuint16_lt ((L.getD (regIndex + i) 0 : Int) - 40001)
    omega
  cases hreg : reg (toQuint16 ((L.getD (regIndex + i) 0 : Int) - 40001)) with
  | some v =>
    have hall : ∀ j, j < 1 →
        (reg ((toQuint16 ((L.getD (regIndex + i) 0 : Int) - 40001) + j) % 65536)).isSome
          = true := by
      intro j hj
      have hj0 : j = 0 := by omega
      subst hj0
      rw [hw, hreg]
      rfl
    obtain ⟨hrc, hval⟩ := h1 hall
    have hv := hval 0 (by omega)
    rw [hw, hreg] at hv
    simp only [retryStep, hrc, if_true, singleOutcome, hreg, hv]
    rfl
  | none =>
    have hnot : ¬ ∀ j, j < 1 →
        (reg ((toQuint16 ((L.getD (regIndex + i) 0 : Int) - 40001) + j) % 65536)).isSome
          = true := by
      intro hall
      have := hall 0 (by omega)
      rw [hw, hreg] at this
      cases this
    have hne := isSplitCode_ne_zero _ (h2 hnot)
    simp only [retryStep, hne, if_false, singleOutcome, hreg]
    rfl

theorem retryLoop_rangeOnly {σ : Type} (dev : Device σ) (reg : Nat → Option Nat)
    (hdev : RangeOnlyDevice dev reg) (L : List Nat) (regIndex n : Nat) (st : PollState σ) :
    (retryLoop dev L regIndex n st).resultMap
      = (List.range n).foldl
          (fun m i => QMap.insert m (L.getD (regIndex + i) 0)
            (singleOutcome reg (L.getD (regIndex + i) 0)))
          st.resultMap := by
  induction n with
  | zero => rfl
  | succ n ih =>
    rw [retryLoop_succ, retryStep_rangeOnly dev reg hdev, ih,
      foldl_insert_succ (fun i => L.getD (regIndex + i) 0)
        (fun i => singleOutcome reg (L.getD (regIndex + i) 0))]

/-- On a device that refuses reads only with range errors, one pass of the loop
never gives up the cycle and records, for every register of the run, the
register's own outcome. -/
theorem pollBody_rangeOnly {σ : Type} (dev : Device σ) (reg : Nat → Option Nat)
    (hdev : RangeOnlyDevice dev reg) (L : List Nat) (M : Nat) (st : PollState σ)
    (h16 : ∀ a ∈ L, a < 65536) (hr : st.regIndex < L.length) :
    (pollBody dev L M st).aborted = st.aborted
    ∧ (pollBody dev L M st).regIndex = st.regIndex + runLength L M st.regIndex
    ∧ (pollBody dev L M st).resultMap
      = (List.range (runLength L M st.regIndex)).foldl
          (fun m i => QMap.insert m (L.getD (st.regIndex + i) 0)
            (singleOutcome reg (L.getD (st.regIndex + i) 0)))
          st.resultMap := by
  have hle := runLength_le_length L M st.regIndex hr
  obtain ⟨h1, h2⟩ := readRegisters_rangeOnly dev reg hdev st.ctx
    ((L.getD st.regIndex 0 : Int) - 40001) (runLength L M st.regIndex) []
  by_cases hall : ∀ i, i < runLength L M st.regIndex →
      (reg ((toQuint16 ((L.getD st.regIndex 0 : Int) - 40001) + i) % 65536)).isSome = true
  · obtain ⟨hrc, hval⟩ := h1 hall
    rw [pollBody_ok dev L M st hrc]
    refine ⟨rfl, rfl, ?_⟩
    show insertRun L st.regIndex (runLength L M st.regIndex) (batchRead dev L M st).list
      st.resultMap = _
    unfold insertRun
    apply foldl_range_congr
    intro i hi m
    have hkey := run_key L M st.regIndex i h16 hr hi
    have hoff := runLength_offset L M st.regIndex i hi
    have hlt : L.getD st.regIndex 0 + i < 65536 := by
      rw [← hoff]
      exact h16 _ (getD_mem L (st.regIndex + i) (by omega))
    have hsome := hall i hi
    have hv := hval i hi
    rw [hkey]
    congr 1
    unfold singleOutcome
    rw [hoff, toQuint16_add _ _ hlt]
    cases hreg : reg ((toQuint16 ((L.getD st.regIndex 0 : Int) - 40001) + i) % 65536) with
    | none =>
      rw [hreg] at hsome
      cases hsome
    | some v =>
      rw [hreg] at hv
      show (⟨(batchRead dev L M st).list.getD i 0, true⟩ : ModbusResult) = ModbusResult.ok _
      unfold batchRead
      rw [hv]
      rfl
  · have hs := h2 hall
    by_cases hc : runLength L M st.regIndex = 1
    · rw [pollBody_split_one dev L M st hs hc]
      refine ⟨rfl, rfl, ?_⟩
      rw [hc]
      show QMap.insert st.resultMap (L.getD st.regIndex 0) ⟨0, false⟩
        = QMap.insert st.resultMap (L.getD (st.regIndex + 0) 0)
            (singleOutcome reg (L.getD (st.regIndex + 0) 0))
      have hnone : reg (toQuint16 ((L.getD st.regIndex 0 : Int) - 40001)) = none := by
        cases hreg : reg (toQuint16 ((L.getD st.regIndex 0 : Int) - 40001)) with
        | none => rfl
        | some v =>
          exfalso
          apply hall
          intro i hi
          have hi0 : i = 0 := by omega
          subst hi0
          have := toQuint16_lt ((L.getD st.regIndex 0 : Int) - 40001)
          rw [show (toQuint16 ((L.getD st.regIndex 0 : Int) - 40001) + 0) % 65536
            = toQuint16 ((L.getD st.regIndex 0 : Int) - 40001) by omega, hreg]
          rfl
      simp only [Nat.add_zero, singleOutcome, hnone]
      rfl
    · obtain ⟨-, -, -, -, -, -, hab', -, -, -⟩ :=
        retryLoop_spec dev L st.regIndex (runLength L M st.regIndex)
          { st with
            ctx := (batchRead dev L M st).ctx,
            registerDataList := (batchRead dev L M st).list,
            log := st.log ++ [batchCall dev L M st],
            error := st.error + 1 }
      rw [pollBody_split_many dev L M st hs hc]
      refine ⟨hab', rfl, ?_⟩
      exact retryLoop_rangeOnly dev reg hdev L st.regIndex (runLength L M st.regIndex) _

end ModbusScope

namespace ModbusScope

/-- On a device that refuses reads only with range errors, the loop never gives
up the cycle, and when it has reached `regIndex` the map holds the outcomes of
the registers before `regIndex`, inserted one by one. -/
theorem pollLoop_rangeOnly {σ : Type} (dev : Device σ) (reg : Nat → Option Nat)
    (hdev : RangeOnlyDevice dev reg) (L : List Nat) (M : Nat) (h16 : ∀ a ∈ L, a < 65536)
    (fuel : Nat) (ctx : σ) :
    (pollLoop dev L M fuel (initState ctx)).aborted = false
    ∧ (pollLoop dev L M fuel (initState ctx)).regIndex ≤ L.length
    ∧ (pollLoop dev L M fuel (initState ctx)).resultMap
      = (List.range (pollLoop dev L M fuel (initState ctx)).regIndex).foldl
          (fun m i => QMap.insert m (L.getD i 0) (singleOutcome reg (L.getD i 0))) [] := by
  refine pollLoop_inv dev L M
    (fun st : PollState σ => st.aborted = false ∧ st.regIndex ≤ L.length
      ∧ st.resultMap = (List.range st.regIndex).foldl
          (fun m i => QMap.insert m (L.getD i 0) (singleOutcome reg (L.getD i 0))) [])
    ?_ fuel (initState ctx) ?_ rfl
  · rintro st ⟨h1, h2, h3⟩ _ hr
    obtain ⟨b1, b2, b3⟩ := pollBody_rangeOnly dev reg hdev L M st h16 hr
    have hle := runLength_le_length L M st.regIndex hr
    refine ⟨b1.trans h1, by omega, ?_⟩
    rw [b3, b2, h3, foldl_range_add]
  · exact ⟨rfl, Nat.zero_le _, rfl⟩

/-- On a device that refuses reads only with range errors, the emitted map is
the map of reading the registers one by one, whatever the limit `M`. -/
theorem readRegisterList_rangeOnly {σ : Type} (dev : Device σ) (reg : Nat → Option Nat)
    (hdev : RangeOnlyDevice dev reg) (ctx : σ) (M pS pE : Nat) (L : List Nat)
    (h16 : ∀ a ∈ L, a < 65536) :
    (readRegisterList dev (some ctx) M pS pE L).aborted = false
    ∧ (readRegisterList dev (some ctx) M pS pE L).resultMap = oneByOne reg L := by
  rw [readRegisterList_some]
  obtain ⟨h1, h2, h3⟩ := pollLoop_rangeOnly dev reg hdev L M h16 L.length ctx
  refine ⟨h1, ?_⟩
  rcases pollLoop_exit dev L M L.length (initState ctx) rfl (by simp) with h | h
  · rw [h1] at h
    cases h
  · have e : (pollLoop dev L M L.length (initState ctx)).regIndex = L.length := by omega
    show (pollLoop dev L M L.length (initState ctx)).resultMap = oneByOne reg L
    rw [h3, e]
    rfl

/-- In the map of reading one by one, every register of the list holds its own
outcome. -/
theorem value_oneByOne (reg : Nat → Option Nat) (L : List Nat) (a : Nat) (ha : a ∈ L) :
    QMap.value (oneByOne reg L) a = some (singleOutcome reg a) := by
  unfold oneByOne
  have hgen : ∀ n, n ≤ L.length → (∃ i, i < n ∧ L.getD i 0 = a) →
      QMap.value ((List.range n).foldl
        (fun m i => QMap.insert m (L.getD i 0) (singleOutcome reg (L.getD i 0))) []) a
        = some (singleOutcome reg a) := by
    intro n
    induction n with
    | zero =>
      rintro _ ⟨i, hi, -⟩
      omega
    | succ n ih =>
      rintro hn ⟨i, hi, hia⟩
      rw [foldl_insert_succ (fun i => L.getD i 0) (fun i => singleOutcome reg (L.getD i 0)),
        QMap.value_insert]
      by_cases hk : a = L.getD n 0
      · simp only [hk, if_true]
      · simp only [hk, if_false]
        have hin : i ≠ n := fun e => hk (by rw [← hia, e])
        exact ih (by omega) ⟨i, by omega, hia⟩
  exact hgen L.length (le_refl _) ((mem_iff_getD L a).1 ha)

/-- The register-file device refuses reads only with range errors. -/
theorem registerFileDevice_rangeOnly (reg : Nat → Option Nat) :
    RangeOnlyDevice (registerFileDevice reg) reg := by
  intro s addr nb
  constructor
  · intro hall
    have hc : (List.range nb).all (fun i => (reg ((addr + i) % 65536)).isSome) = true := by
      rw [List.all_eq_true]
      intro i hi
      exact hall i (List.mem_range.1 hi)
    refine ⟨(List.range nb).map (fun i => (reg ((addr + i) % 65536)).getD 0), ?_, ?_⟩
    · simp only [registerFileDevice, hc, if_true]
    · intro i hi
      exact getD_map_range _ nb i hi
  · intro hnot
    have hc : ¬ (List.range nb).all (fun i => (reg ((addr + i) % 65536)).isSome) = true := by
      intro h
      apply hnot
      intro i hi
      rw [List.all_eq_true] at h
      exact h i (List.mem_range.2 hi)
    refine ⟨MODBUS_ENOBASE + MODBUS_EXCEPTION_ILLEGAL_DATA_ADDRESS, ?_, by decide⟩
    simp only [registerFileDevice, hc, if_false, Bool.false_eq_true]

/-- C3 (split equivalence, partial data recovery). On a deterministic device on
which a read of registers succeeds, with the values the registers hold, exactly
when every register in it can be read, and otherwise fails with a range error
(illegal data address or illegal data value): for every list of 16-bit register
addresses and every `M`, the cycle is not given up, the result map of
`readRegisterList` equals the result map obtained with `M = 1`, which is the map
of reading the registers one by one from the start, and in it every register
that can be read is Ok with its value and every other register is Failed. -/
theorem split_equivalence {σ : Type} (dev : Device σ) (reg : Nat → Option Nat)
    (hdev : RangeOnlyDevice dev reg) (ctx : σ) (M pS pE : Nat) (L : List Nat)
    (h16 : ∀ a ∈ L, a < 65536) :
    (readRegisterList dev (some ctx) M pS pE L).aborted = false
    ∧ (readRegisterList dev (some ctx) M pS pE L).resultMap
      = (readRegisterList dev (some ctx) 1 pS pE L).resultMap
    ∧ (readRegisterList dev (some ctx) M pS pE L).resultMap = oneByOne reg L
    ∧ (∀ a ∈ L, ∀ v, reg (toQuint16 ((a : Int) - 40001)) = some v →
        QMap.value (readRegisterList dev (some ctx) M pS pE L).resultMap a
          = some (ModbusResult.ok (v % 65536)))
    ∧ (∀ a ∈ L, reg (toQuint16 ((a : Int) - 40001)) = none →
        QMap.value (readRegisterList dev (some ctx) M pS pE L).resultMap a
          = some ModbusResult.failed) := by
  obtain ⟨hM1, hM2⟩ := readRegisterList_rangeOnly dev reg hdev ctx M pS pE L h16
  obtain ⟨-, h12⟩ := readRegisterList_rangeOnly dev reg hdev ctx 1 pS pE L h16
  refine ⟨hM1, by rw [hM2, h12], hM2, ?_, ?_⟩
  · intro a ha v hv
    rw [hM2, value_oneByOne reg L a ha]
    simp only [singleOutcome, hv]
  · intro a ha hv
    rw [hM2, value_oneByOne reg L a ha]
    simp only [singleOutcome, hv]

/-- The spec's example: request `[40010, 40011]`, `M = 10`, 40010 holds 5 and
40011 cannot be read; the result is `{40010: Ok(5), 40011: Failed}`, with `M = 10`
as with `M = 1`. -/
theorem split_equivalence_witness :
    RangeOnlyDevice (registerFileDevice (fun w => if w = 9 then some 5 else none))
      (fun w => if w = 9 then some 5 else none)
    ∧ (∀ a ∈ [40010, 40011], a < 65536)
    ∧ (readRegisterList (registerFileDevice (fun w => if w = 9 then some 5 else none))
        (some ()) 10 0 0 [40010, 40011]).resultMap
      = [(40010, ModbusResult.ok 5), (40011, ModbusResult.failed)]
    ∧ (readRegisterList (registerFileDevice (fun w => if w = 9 then some 5 else none))
        (some ()) 10 0 0 [40010, 40011]).resultMap
      = (readRegisterList (registerFileDevice (fun w => if w = 9 then some 5 else none))
        (some ()) 1 0 0 [40010, 40011]).resultMap :=
  ⟨registerFileDevice_rangeOnly _, by decide, by decide,
    (split_equivalence (registerFileDevice (fun w => if w = 9 then some 5 else none))
      (fun w => if w = 9 then some 5 else none) (registerFileDevice_rangeOnly _) ()
      10 0 0 [40010, 40011] (by decide)).2.1⟩

end ModbusScope

namespace ModbusScope

/-- The counters on the spec's two examples: the run 40001..40003 read in one
go adds one success; on `[40010, 40011]` the refused read of the run and the
refused separate read of 40011 add two errors, the separate read of 40010 one
success; from the largest 32-bit total the success total wraps to 0. -/
theorem counters_count_reads_witness :
    (batchRead scriptDevice [40001, 40002, 40003] 10
        (initState [ReadReply.data [10, 20, 30]])).rc = 0
    ∧ (pollBody scriptDevice [40001, 40002, 40003] 10
        (initState [ReadReply.data [10, 20, 30]])).success = 0 + 1
    ∧ (readRegisterList (registerFileDevice (fun w => if w = 9 then some 5 else none))
        (some ()) 10 0 0 [40010, 40011]).log.map (fun c => c.rc)
      = [112345680, 0, 112345680]
    ∧ (readRegisterList (registerFileDevice (fun w => if w = 9 then some 5 else none))
        (some ()) 10 0 0 [40010, 40011]).successCount = 1
    ∧ (readRegisterList (registerFileDevice (fun w => if w = 9 then some 5 else none))
        (some ()) 10 0 0 [40010, 40011]).errorCount = 2
    ∧ (readRegisterList (registerFileDevice (fun w => if w = 9 then some 5 else none))
        (some ()) 10 4294967295 0 [40010, 40011]).successCount = 0
    ∧ (readRegisterList (registerFileDevice (fun w => if w = 9 then some 5 else none))
        (some ()) 10 0 0 [40010, 40011]).success
      = okCount (readRegisterList
          (registerFileDevice (fun w => if w = 9 then some 5 else none))
          (some ()) 10 0 0 [40010, 40011]).log
    ∧ (readRegisterList (registerFileDevice (fun w => if w = 9 then some 5 else none))
        (some ()) 10 0 0 [40010, 40011]).errorCount
      = 0 + errCount (readRegisterList
          (registerFileDevice (fun w => if w = 9 then some 5 else none))
          (some ()) 10 0 0 [40010, 40011]).log :=
  ⟨by decide,
    ((counters_count_reads scriptDevice [ReadReply.data [10, 20, 30]] 10 0 0
      [40001, 40002, 40003]).2.2.2.2.2.2.1 (initState [ReadReply.data [10, 20, 30]])
      (by decide)).1,
    by decide, by decide, by decide, by decide,
    (counters_count_reads (registerFileDevice (fun w => if w = 9 then some 5 else none)) ()
      10 0 0 [40010, 40011]).1,
    (counters_count_reads (registerFileDevice (fun w => if w = 9 then some 5 else none)) ()
      10 0 0 [40010, 40011]).2.2.2.2.2.1 (by decide)⟩

end ModbusScope

namespace ModbusScope

/-! ## The log records the calls the device receives -/

theorem readRegisters_spy {σ : Type} (dev : Device σ) (s : σ × List (Nat × Nat)) (x : Int)
    (n : Nat) (l : List Nat) :
    (readRegisters (spyDevice dev) s x n l).ctx
        = ((readRegisters dev s.1 x n l).ctx, s.2 ++ [(toQuint16 x, n)])
    ∧ (readRegisters (spyDevice dev) s x n l).rc = (readRegisters dev s.1 x n l).rc
    ∧ (readRegisters (spyDevice dev) s x n l).list = (readRegisters dev s.1 x n l).list
    ∧ (readRegisters (spyDevice dev) s x n l).addr = (readRegisters dev s.1 x n l).addr
    ∧ (readRegisters (spyDevice dev) s x n l).nb = (readRegisters dev s.1 x n l).nb := by
  unfold readRegisters spyDevice
  cases h : dev s.1 (toQuint16 x) n with
  | mk c r =>
    cases r with
    | error e => exact ⟨rfl, rfl, rfl, rfl, rfl⟩
    | data b => exact ⟨rfl, rfl, rfl, rfl, rfl⟩

end ModbusScope

namespace ModbusScope

theorem retryStep_spy {σ : Type} (dev : Device σ) (L : List Nat) (regIndex : Nat)
    (st : PollState (σ × List (Nat × Nat))) (i : Nat) :
    forgetSpy (retryStep (spyDevice dev) L regIndex st i)
        = retryStep dev L regIndex (forgetSpy st) i
    ∧ (retryStep (spyDevice dev) L regIndex st i).ctx.2
        = st.ctx.2 ++ callsOf [⟨regIndex + i, false,
            toQuint16 ((L.getD (regIndex + i) 0 : Int) - 40001), 1, 0, []⟩] := by
  obtain ⟨h1, h2, h3, h4, h5⟩ := readRegisters_spy dev st.ctx
    ((L.getD (regIndex + i) 0 : Int) - 40001) 1 st.registerDataList
  by_cases hrc : (readRegisters dev st.ctx.1 ((L.getD (regIndex + i) 0 : Int) - 40001) 1
      st.registerDataList).rc = 0
  · have hrc' := h2.trans hrc
    simp only [retryStep, forgetSpy, hrc, hrc', if_true, h1, h3, h4, h5, callsOf, List.map_cons,
      List.map_nil, and_self]
  · have hrc' : ¬ (readRegisters (spyDevice dev) st.ctx
        ((L.getD (regIndex + i) 0 : Int) - 40001) 1 st.registerDataList).rc = 0 := by
      rw [h2]
      exact hrc
    simp only [retryStep, forgetSpy, hrc, hrc', if_false, h1, h2, h3, h4, h5, callsOf,
      List.map_cons, List.map_nil, and_self]

theorem retryLoop_spy {σ : Type} (dev : Device σ) (L : List Nat) (regIndex n : Nat)
    (st : PollState (σ × List (Nat × Nat))) (hinv : st.ctx.2 = callsOf st.log) :
    forgetSpy (retryLoop (spyDevice dev) L regIndex n st)
        = retryLoop dev L regIndex n (forgetSpy st)
    ∧ (retryLoop (spyDevice dev) L regIndex n st).ctx.2
        = callsOf (retryLoop (spyDevice dev) L regIndex n st).log := by
  induction n with
  | zero => exact ⟨rfl, hinv⟩
  | succ n ih =>
    obtain ⟨ih1, ih2⟩ := ih
    obtain ⟨s1, s2⟩ := retryStep_spy dev L regIndex (retryLoop (spyDevice dev) L regIndex n st) n
    obtain ⟨c, c1, c2, c3, c4, clog, -⟩ :=
      retryStep_spec (spyDevice dev) L regIndex (retryLoop (spyDevice dev) L regIndex n st) n
    refine ⟨?_, ?_⟩
    · rw [retryLoop_succ, retryLoop_succ, s1, ih1]
    · rw [retryLoop_succ, s2, clog, ih2]
      simp only [callsOf, List.map_append, List.map_cons, List.map_nil, c3, c4]

end ModbusScope

namespace ModbusScope

theorem batchRead_spy {σ : Type} (dev : Device σ) (L : List Nat) (M : Nat)
    (st : PollState (σ × List (Nat × Nat))) :
    (batchRead (spyDevice dev) L M st).ctx
        = ((batchRead dev L M (forgetSpy st)).ctx,
            st.ctx.2 ++ callsOf [batchCall dev L M (forgetSpy st)])
    ∧ (batchRead (spyDevice dev) L M st).rc = (batchRead dev L M (forgetSpy st)).rc
    ∧ (batchRead (spyDevice dev) L M st).list = (batchRead dev L M (forgetSpy st)).list
    ∧ batchCall (spyDevice dev) L M st = batchCall dev L M (forgetSpy st) := by
  obtain ⟨h1, h2, h3, h4, h5⟩ := readRegisters_spy dev st.ctx
    ((L.getD st.regIndex 0 : Int) - 40001) (runLength L M st.regIndex) []
  obtain ⟨-, -, b3, b4, -⟩ := batchCall_fields dev L M (forgetSpy st)
  refine ⟨?_, h2, h3, ?_⟩
  · show (readRegisters (spyDevice dev) st.ctx ((L.getD st.regIndex 0 : Int) - 40001)
      (runLength L M st.regIndex) []).ctx = _
    rw [h1]
    simp only [callsOf, List.map_cons, List.map_nil, b3, b4]
    rfl
  · show ReadCall.mk _ _ _ _ _ _ = ReadCall.mk _ _ _ _ _ _
    unfold batchRead
    rw [h2, h3, h4, h5]
    rfl

/-- One pass of the loop on the recording device is the pass on the device
itself, and the device has received the calls the log records. -/
theorem pollBody_spy {σ : Type} (dev : Device σ) (L : List Nat) (M : Nat)
    (st : PollState (σ × List (Nat × Nat))) (hinv : st.ctx.2 = callsOf st.log) :
    forgetSpy (pollBody (spyDevice dev) L M st) = pollBody dev L M (forgetSpy st)
    ∧ (pollBody (spyDevice dev) L M st).ctx.2 = callsOf (pollBody (spyDevice dev) L M st).log := by
  obtain ⟨h1, h2, h3, h4⟩ := batchRead_spy dev L M st
  have hcalls : ∀ a b : List ReadCall, callsOf (a ++ b) = callsOf a ++ callsOf b := by
    intro a b
    simp [callsOf]
  rcases rc_cases (batchRead dev L M (forgetSpy st)).rc with h0 | hs | hl
  · rw [pollBody_ok (spyDevice dev) L M st (h2.trans h0), pollBody_ok dev L M (forgetSpy st) h0]
    refine ⟨?_, ?_⟩
    · simp only [forgetSpy, h1, h3, h4]
    · simp only [h1, h4, hcalls, hinv]
  · have hs' : isSplitCode (batchRead (spyDevice dev) L M st).rc = true := by
      rw [h2]
      exact hs
    by_cases hc : runLength L M st.regIndex = 1
    · rw [pollBody_split_one (spyDevice dev) L M st hs' hc,
        pollBody_split_one dev L M (forgetSpy st) hs hc]
      refine ⟨?_, ?_⟩
      · simp only [forgetSpy, h1, h3, h4]
      · simp only [h1, h4, hcalls, hinv]
    · rw [pollBody_split_many (spyDevice dev) L M st hs' hc,
        pollBody_split_many dev L M (forgetSpy st) hs hc]
      obtain ⟨r1, r2⟩ := retryLoop_spy dev L st.regIndex (runLength L M st.regIndex)
        { st with
          ctx := (batchRead (spyDevice dev) L M st).ctx,
          registerDataList := (batchRead (spyDevice dev) L M st).list,
          log := st.log ++ [batchCall (spyDevice dev) L M st],
          error := st.error + 1 }
        (by simp only [h1, h4, hcalls, hinv])
      refine ⟨?_, r2⟩
      have e : forgetSpy
          { st with
            ctx := (batchRead (spyDevice dev) L M st).ctx,
            registerDataList := (batchRead (spyDevice dev) L M st).list,
            log := st.log ++ [batchCall (spyDevice dev) L M st],
            error := st.error + 1 }
          = { forgetSpy st with
              ctx := (batchRead dev L M (forgetSpy st)).ctx,
              registerDataList := (batchRead dev L M (forgetSpy st)).list,
              log := (forgetSpy st).log ++ [batchCall dev L M (forgetSpy st)],
              error := (forgetSpy st).error + 1 } := by
        simp only [forgetSpy, h1, h3, h4]
      have r1' : retryLoop dev L (forgetSpy st).regIndex
          (runLength L M (forgetSpy st).regIndex)
          (forgetSpy
            { st with
              ctx := (batchRead (spyDevice dev) L M st).ctx,
              registerDataList := (batchRead (spyDevice dev) L M st).list,
              log := st.log ++ [batchCall (spyDevice dev) L M st],
              error := st.error + 1 })
          = forgetSpy (retryLoop (spyDevice dev) L st.regIndex (runLength L M st.regIndex)
            { st with
              ctx := (batchRead (spyDevice dev) L M st).ctx,
              registerDataList := (batchRead (spyDevice dev) L M st).list,
              log := st.log ++ [batchCall (spyDevice dev) L M st],
              error := st.error + 1 }) := r1.symm
      rw [← e, r1']
      rfl
  · have hl' : isLinkError (batchRead (spyDevice dev) L M st).rc = true := by
      rw [h2]
      exact hl
    rw [pollBody_abort (spyDevice dev) L M st hl', pollBody_abort dev L M (forgetSpy st) hl]
    refine ⟨?_, ?_⟩
    · simp only [forgetSpy, h1, h3, h4]
    · simp only [h1, h4, hcalls, hinv]

theorem pollLoop_spy {σ : Type} (dev : Device σ) (L : List Nat) (M : Nat) (fuel : Nat)
    (st : PollState (σ × List (Nat × Nat))) (hinv : st.ctx.2 = callsOf st.log) :
    forgetSpy (pollLoop (spyDevice dev) L M fuel st) = pollLoop dev L M fuel (forgetSpy st)
    ∧ (pollLoop (spyDevice dev) L M fuel st).ctx.2
        = callsOf (pollLoop (spyDevice dev) L M fuel st).log := by
  induction fuel generalizing st with
  | zero => exact ⟨rfl, hinv⟩
  | succ fuel ih =>
    obtain ⟨b1, b2⟩ := pollBody_spy dev L M st hinv
    have hab : (pollBody (spyDevice dev) L M st).aborted
        = (pollBody dev L M (forgetSpy st)).aborted := by
      rw [← b1]
      rfl
    simp only [pollLoop]
    by_cases hr : st.regIndex < L.length
    · have hr' : (forgetSpy st).regIndex < L.length := hr
      simp only [hr, hr', if_true]
      by_cases hb : (pollBody dev L M (forgetSpy st)).aborted = true
      · rw [if_pos (hab.trans hb), if_pos hb]
        exact ⟨b1, b2⟩
      · rw [if_neg (by rw [hab]; exact hb), if_neg hb]
        obtain ⟨i1, i2⟩ := ih (pollBody (spyDevice dev) L M st) b2
        exact ⟨by rw [i1, b1], i2⟩
    · have hr' : ¬ (forgetSpy st).regIndex < L.length := hr
      rw [if_neg hr, if_neg hr']
      exact ⟨rfl, hinv⟩

/-- The log is faithful: a device that keeps the list of the calls it receives
has, at the end of the cycle, received exactly the calls the log records, in
the same order, and the cycle on it is the cycle on the device itself. -/
theorem log_faithful {σ : Type} (dev : Device σ) (ctx : σ) (M pS pE : Nat) (L : List Nat) :
    readRegisterList (spyDevice dev) (some (ctx, [])) M pS pE L
        = readRegisterList dev (some ctx) M pS pE L
    ∧ (pollLoop (spyDevice dev) L M L.length (initState (ctx, []))).ctx.2
        = callsOf (readRegisterList dev (some ctx) M pS pE L).log := by
  obtain ⟨h1, h2⟩ := pollLoop_spy dev L M L.length (initState (ctx, [])) rfl
  have h1' : forgetSpy (pollLoop (spyDevice dev) L M L.length (initState (ctx, [])))
      = pollLoop dev L M L.length (initState ctx) := h1
  constructor
  · rw [readRegisterList_some, readRegisterList_some, ← h1']
    rfl
  · rw [readRegisterList_some, ← h1']
    exact h2

end ModbusScope

namespace ModbusScope

/-! ## What the device receives -/

/-- The calls the device receives, written from the list: for each recorded
read, the wire address of the register it starts at and the run length (read of
a run) or `1` (separate read). -/
theorem receivedCalls_eq {σ : Type} (dev : Device σ) (ctx : σ) (M pS pE : Nat)
    (L : List Nat) :
    receivedCalls dev ctx M L
      = (readRegisterList dev (some ctx) M pS pE L).log.map
          (fun c => (toQuint16 ((L.getD c.index 0 : Int) - 40001),
            if c.batch = true then runLength L M c.index else 1)) := by
  have hwf : LogWellFormed L M (readRegisterList dev (some ctx) M pS pE L).log := by
    rw [readRegisterList_some]
    exact pollLoop_logWellFormed dev L M L.length ctx
  show (pollLoop (spyDevice dev) L M L.length (initState (ctx, []))).ctx.2 = _
  rw [(log_faithful dev ctx M pS pE L).2]
  unfold callsOf
  apply List.map_congr_left
  intro c hc
  obtain ⟨-, w2, w3, w4⟩ := hwf c hc
  by_cases hb : c.batch = true
  · rw [w2, w3 hb, if_pos hb]
  · have hb' : c.batch = false := by simpa using hb
    rw [w2, w4 hb', if_neg hb]

/-- C9 (register-numbering offset). For every list of 16-bit register addresses,
the calls that `modbus_read_registers` receives in a cycle (as kept by a device
that records its calls, on which the cycle runs exactly as on the device itself)
are, in order, one per recorded read: start address `(a - 40001) mod 2^16`, where
`a` is the external address of the register the read starts at, and number of
registers equal to the run length for the read of a run and to `1` for a
separate read of the split branch. The wire address is exactly `a - 40001` when
`a ≥ 40001`. The keys of the emitted result are exactly the external addresses
of the request; and when all requested addresses are `≥ 40001`, no wire address
the device received is a key. -/
theorem wire_addressing {σ : Type} (dev : Device σ) (ctx : σ) (M pS pE : Nat)
    (L : List Nat) (h16 : ∀ a ∈ L, a < 65536) :
    readRegisterList (spyDevice dev) (some (ctx, [])) M pS pE L
        = readRegisterList dev (some ctx) M pS pE L
    ∧ receivedCalls dev ctx M L
        = (readRegisterList dev (some ctx) M pS pE L).log.map
            (fun c => (toQuint16 ((L.getD c.index 0 : Int) - 40001),
              if c.batch = true then runLength L M c.index else 1))
    ∧ receivedCalls dev ctx M L
        = (readRegisterList dev (some ctx) M pS pE L).log.map (fun c => (c.startReg, c.num))
    ∧ (∀ c ∈ (readRegisterList dev (some ctx) M pS pE L).log,
        c.index < L.length
        ∧ c.startReg = toQuint16 ((L.getD c.index 0 : Int) - 40001)
        ∧ c.startReg = ((L.getD c.index 0 : Int) - 40001) % 65536
        ∧ (40001 ≤ L.getD c.index 0 → c.startReg = L.getD c.index 0 - 40001)
        ∧ (c.batch = true → c.num = runLength L M c.index)
        ∧ (c.batch = false → c.num = 1))
    ∧ (∀ k, k ∈ QMap.keys (readRegisterList dev (some ctx) M pS pE L).resultMap ↔ k ∈ L)
    ∧ ((∀ a ∈ L, 40001 ≤ a) →
        ∀ call ∈ receivedCalls dev ctx M L,
          call.1 ∉ QMap.keys (readRegisterList dev (some ctx) M pS pE L).resultMap) := by
  have hwf : LogWellFormed L M (readRegisterList dev (some ctx) M pS pE L).log := by
    rw [readRegisterList_some]
    exact pollLoop_logWellFormed dev L M L.length ctx
  have hkeys := (readRegisterList_keys dev (some ctx) M pS pE L h16).1
  obtain ⟨hsame, hcalls⟩ := log_faithful dev ctx M pS pE L
  refine ⟨hsame, receivedCalls_eq dev ctx M pS pE L, hcalls, ?_, hkeys, ?_⟩
  · intro c hc
    obtain ⟨w1, w2, w3, w4⟩ := hwf c hc
    have hlt := h16 _ (getD_mem L c.index w1)
    refine ⟨w1, w2, ?_, ?_, w3, w4⟩
    · rw [w2]
      unfold toQuint16
      rw [Int.toNat_of_nonneg (Int.emod_nonneg _ (by decide))]
    · intro h4
      rw [w2]
      exact toQuint16_offset _ h4 hlt
  · intro hge call hcall hk
    have hcall' : call ∈ callsOf (readRegisterList dev (some ctx) M pS pE L).log := by
      rw [← hcalls]
      exact hcall
    simp only [callsOf, List.mem_map] at hcall'
    obtain ⟨c, hc, rfl⟩ := hcall'
    obtain ⟨w1, w2, -, -⟩ := hwf c hc
    have hmem := getD_mem L c.index w1
    have hlt := h16 _ hmem
    have h4 := hge _ hmem
    simp only at hk
    rw [w2, toQuint16_offset _ h4 hlt] at hk
    have := hge _ ((hkeys _).1 hk)
    omega

/-- The calls the device receives for the request `[40010, 40011]` with `M = 10`,
where 40010 holds 5 and 40011 cannot be read: the run is read at wire address 9
with count 2, then 40010 at wire address 9 and 40011 at wire address 10, each with
count 1; the keys are 40010 and 40011. -/
theorem wire_addressing_witness :
    (∀ a ∈ [40010, 40011], a < 65536)
    ∧ receivedCalls (registerFileDevice (fun w => if w = 9 then some 5 else none)) () 10
        [40010, 40011] = [(9, 2), (9, 1), (10, 1)]
    ∧ QMap.keys (readRegisterList (registerFileDevice (fun w => if w = 9 then some 5 else none))
        (some ()) 10 0 0 [40010, 40011]).resultMap = [40010, 40011]
    ∧ receivedCalls (registerFileDevice (fun w => if w = 9 then some 5 else none)) () 10
        [40010, 40011]
      = (readRegisterList (registerFileDevice (fun w => if w = 9 then some 5 else none))
          (some ()) 10 0 0 [40010, 40011]).log.map
            (fun c => (toQuint16 (([40010, 40011].getD c.index 0 : Int) - 40001),
              if c.batch = true then runLength [40010, 40011] 10 c.index else 1))
    ∧ (∀ k, k ∈ QMap.keys (readRegisterList
          (registerFileDevice (fun w => if w = 9 then some 5 else none))
          (some ()) 10 0 0 [40010, 40011]).resultMap ↔ k ∈ [40010, 40011]) :=
  ⟨by decide, by decide, by decide,
    (wire_addressing (registerFileDevice (fun w => if w = 9 then some 5 else none)) ()
      10 0 0 [40010, 40011] (by decide)).2.1,
    (wire_addressing (registerFileDevice (fun w => if w = 9 then some 5 else none)) ()
      10 0 0 [40010, 40011] (by decide)).2.2.2.2.1⟩

end ModbusScope
